import Mathlib

/-!
# Verification of the quelo.tech document-to-canvas layout engine

Shallow embedding of the layout core of the repository:

* `src/app/utils/markdown.ts` — the Document Walker (`convertMarkdownTreeToElements`
  / `traverse`) and the inline LaTeX segment scan;
* `src/unnamed/part_000` (table.ts) — `convertHtmlTableToMarkdown` and
  `createVisualTableElements`;
* `src/unnamed/part_001` (mermaid.js) — `preprocessMermaidCode`;
* `src/app/utils/diagrams.ts` — `processMermaidCode`.

JavaScript strings are modelled as `List Char` / `String`; JavaScript numbers as
`Rat` (all arithmetic appearing in the sources is small-magnitude and exact);
regular-expression scans are hand-rolled scanners with the same matching
semantics (leftmost match, greedy / lazy as in the source pattern, `lastIndex`
advancing past each match).  Fields of visual elements that carry fresh random
identifiers, seeds and version nonces are omitted: they are non-semantic
(the spec's data model assigns them no meaning beyond uniqueness).
-/

set_option allowUnsafeReducibility true in
attribute [semireducible] Rat.mul Rat.add Rat.sub Rat.div Rat.inv Rat.neg Rat.ofScientific

namespace Quelo

/-! ## Generic string helpers (JavaScript semantics) -/

/-- The single-quote character (written via its code point). -/
def squote : Char := Char.ofNat 39

/-- The double-quote character. -/
def dquote : Char := '\"'

/-- The backslash character. -/
def bslash : Char := Char.ofNat 92

/-- JS `Array.prototype.join` / `String.prototype.split` on `'\n'`:
split a character list at newline characters. -/
def splitNl : List Char → List (List Char)
  | [] => [[]]
  | c :: cs =>
    let r := splitNl cs
    if c = '\n' then [] :: r
    else
      match r with
      | [] => [[c]]
      | l :: ls => (c :: l) :: ls

/-- Join lines with newline characters (inverse of `splitNl`). -/
def joinNl : List (List Char) → List Char
  | [] => []
  | [l] => l
  | l :: ls => l ++ '\n' :: joinNl ls

/-! ## `preprocessMermaidCode` (src/unnamed/part_001, mermaid.js)

The Diagram Preprocessor: per line, wrap un-quoted bracket/parenthesis/brace/
edge-label contents in double quotes after HTML-entity escaping.  Each regex
replace of the source is a left-to-right scanner; callback offsets refer to the
pass's input line, exactly as `String.prototype.replace` passes them. -/

/-- JS `String.prototype.trim`: strip leading and trailing whitespace. -/
def jsTrim (cs : List Char) : List Char :=
  ((cs.dropWhile (fun c => c.isWhitespace)).reverse.dropWhile
    (fun c => c.isWhitespace)).reverse

/-- Global replace of a literal (non-empty) pattern, leftmost first, with
scanning resuming after each replaced occurrence (JS
`String.prototype.replace` with a global literal pattern).  `skip` counts the
remaining characters of an already-replaced occurrence. -/
def replGo (pat repl : List Char) : Nat → List Char → List Char
  | _, [] => []
  | skip+1, _ :: cs => replGo pat repl skip cs
  | 0, c :: cs =>
    if pat.isPrefixOf (c :: cs) then repl ++ replGo pat repl (pat.length - 1) cs
    else c :: replGo pat repl 0 cs

/-- `cs.replace(pat, repl)` with a global literal pattern. -/
def replaceAll (pat repl cs : List Char) : List Char := replGo pat repl 0 cs

/-- `escapeContent` from mermaid.js: HTML-entity escape `& < > " '`
(ampersand first, to avoid double escaping), then trim. -/
def escapeContent (content : List Char) : List Char :=
  jsTrim (replaceAll [squote] "&#39;".data
    (replaceAll [dquote] "&quot;".data
      (replaceAll ">".data "&gt;".data
        (replaceAll "<".data "&lt;".data
          (replaceAll "&".data "&amp;".data content)))))

/-- `isAlreadyQuoted` from mermaid.js: trimmed content starts and ends with the
same kind of quote. -/
def isAlreadyQuoted (content : List Char) : Bool :=
  let t := jsTrim content
  (t.headD ' ' = dquote && t.getLast? = some dquote) ||
  (t.headD ' ' = squote && t.getLast? = some squote)

/-- Quote-scan state machine of `isInsideQuotes`: walk characters tracking the
previous character (for the backslash-escape check) and the currently open
quote character, if any. -/
def insideQuotesGo : List Char → Option Char → Option Char → Bool
  | [], _, qstate => qstate.isSome
  | c :: cs, prev, qstate =>
    let qstate' :=
      if (c = dquote ∨ c = squote) ∧ prev ≠ some bslash then
        match qstate with
        | none => some c
        | some q => if c = q then none else some q
      else qstate
    insideQuotesGo cs (some c) qstate'

/-- `isInsideQuotes(text, position)` from mermaid.js. -/
def isInsideQuotes (text : List Char) (position : Nat) : Bool :=
  insideQuotesGo (text.take position) none none

/-- JS `/^[\w\s\-_.,]+$/` character class (ASCII word characters, whitespace,
and `- _ . ,`). -/
def isSimpleParenChar (c : Char) : Bool :=
  c.isAlphanum || c = '_' || c.isWhitespace || c = '-' || c = '.' || c = ','

/-- One bracket-quoting replace pass over one line.  `opc`/`clc` are the
opening and closing delimiter; `parenRule` enables the extra
function-call-protection test used for parentheses.  `line` is the pass's
input line (used for quote-scan offsets), `i` the current offset, `skip` the
number of upcoming characters that belong to an already-emitted match (a
global regex replace resumes scanning after each match, never inside one),
and the last argument the remaining suffix.  A match (delimiter, non-empty
closer-free content, delimiter) is either kept verbatim (inside quotes /
already quoted / complex paren content) or rewritten to
`opc "escaped-content" clc`. -/
def bracketGo (opc clc : Char) (parenRule : Bool) (line : List Char) :
    Nat → Nat → List Char → List Char
  | _, _, [] => []
  | i, skip+1, _ :: rest => bracketGo opc clc parenRule line (i+1) skip rest
  | i, 0, c :: rest =>
    if c = opc then
      let content := rest.takeWhile (fun x => x ≠ clc)
      if content ≠ [] ∧ rest.drop content.length ≠ [] then
        let keep := opc :: content ++ [clc]
        let quoted := opc :: dquote :: (escapeContent content ++ [dquote, clc])
        let repl :=
          if isInsideQuotes line i then keep
          else if isAlreadyQuoted content then keep
          else if parenRule ∧
              ¬(content.all isSimpleParenChar ∧ ¬content.contains dquote ∧
                ¬content.contains squote) then keep
          else quoted
        repl ++ bracketGo opc clc parenRule line (i+1) (content.length + 1) rest
      else c :: bracketGo opc clc parenRule line (i+1) 0 rest
    else c :: bracketGo opc clc parenRule line (i+1) 0 rest

/-- Square-bracket pass: `[text]` → `["escaped_text"]`. -/
def squarePassLine (l : List Char) : List Char := bracketGo '[' ']' false l 0 0 l

/-- Parenthesis pass: `(text)` → `("escaped_text")`, with protection for
complex content. -/
def parenPassLine (l : List Char) : List Char := bracketGo '(' ')' true l 0 0 l

/-- Curly-brace pass. -/
def curlyPassLine (l : List Char) : List Char := bracketGo '\x7b' '\x7d' false l 0 0 l

/-- Edge-label pass: `|text|` → `|"escaped_text"|`. -/
def pipePassLine (l : List Char) : List Char := bracketGo '|' '|' false l 0 0 l

/-- Match `/<br\s*\/?>/i` at the head of the list; on success return the
length of the match. -/
def brMatch : List Char → Option Nat
  | '<' :: c1 :: c2 :: rest =>
    if c1.toLower = 'b' ∧ c2.toLower = 'r' then
      let ws := rest.takeWhile (fun c => c.isWhitespace)
      match rest.drop ws.length with
      | '>' :: _ => some (3 + ws.length + 1)
      | '/' :: '>' :: _ => some (3 + ws.length + 2)
      | _ => none
    else none
  | _ => none

/-- Global replace of `/<br\s*\/?>/gi` by a newline.  `skip` counts
remaining characters of an already-replaced match. -/
def brGo : Nat → List Char → List Char
  | _, [] => []
  | skip+1, _ :: cs => brGo skip cs
  | 0, c :: cs =>
    match brMatch (c :: cs) with
    | some k => '\n' :: brGo (k - 1) cs
    | none => c :: brGo 0 cs

/-- `mermaidCode.replace(/<br\s*\/?>/gi, '\n')`. -/
def brReplace (cs : List Char) : List Char := brGo 0 cs

/-- `preprocessMermaidCode` from mermaid.js: replace `<br>` tags with
newlines, then per line run the square-bracket, parenthesis, curly-brace and
edge-label quoting passes in that order, and re-join the lines. -/
def preprocessMermaidCode (mermaidCode : String) : String :=
  let processed := brReplace mermaidCode.data
  let lines := splitNl processed
  let processedLines := lines.map (fun line =>
    pipePassLine (curlyPassLine (parenPassLine (squarePassLine line))))
  (joinNl processedLines).asString

/-- Characters whose presence lets the Diagram Preprocessor touch a string:
quotes, the break-tag opener, and the four opening delimiters. -/
def mermaidTrigger (c : Char) : Prop :=
  c = dquote ∨ c = squote ∨ c = '<' ∨ c = '[' ∨ c = '(' ∨ c = '\x7b' ∨ c = '|'

instance (c : Char) : Decidable (mermaidTrigger c) := by
  unfold mermaidTrigger; infer_instance

/-! ## Visual primitives

The semantic fields of the emitted Excalidraw-bound elements.  Styling
constants that no claim mentions (background colors, fill style, roughness,
random seeds, nonces, identifiers) are omitted as non-semantic. -/

/-- A positioned visual primitive (text / image / line / rectangle). -/
structure Elem where
  typ : String
  x : Rat
  y : Rat
  width : Rat
  height : Rat
  text : String
  fontSize : Rat
  strokeColor : String
deriving Repr, DecidableEq

/-! ## Table Formatter (src/unnamed/part_000, table.ts) -/

/-- Case-insensitive prefix test (the source's row/cell regexes carry the
`i` flag). -/
def ciPrefix : List Char → List Char → Bool
  | [], _ => true
  | _ :: _, [] => false
  | p :: ps, c :: cs => p.toLower = c.toLower && ciPrefix ps cs

/-- Length of the first of `pats` matching at the head of `cs`, if any. -/
def firstCI (pats : List (List Char)) (cs : List Char) : Option Nat :=
  match pats with
  | [] => none
  | p :: ps => if ciPrefix p cs then some p.length else firstCI ps cs

/-- Content before the first (case-insensitive) occurrence of any of `clss`,
together with the length of the matched closer — the lazy `([\s\S]*?)` part
of the source's row/cell regexes. -/
def findCloseCI (clss : List (List Char)) : List Char → Option (List Char × Nat)
  | [] => none
  | c :: cs =>
    match firstCI clss (c :: cs) with
    | some k => some ([], k)
    | none =>
      match findCloseCI clss cs with
      | some (pre, k) => some (c :: pre, k)
      | none => none

/-- Global scan for `open …lazy-content… close` tag pairs, returning the list
of contents.  Scanning resumes after each full match (`skip`), as with a
global regex; a position whose opener has no later closer matches nothing. -/
def tagPairsGo (opns clss : List (List Char)) : List Char → Nat → List (List Char)
  | [], _ => []
  | _ :: cs, skip+1 => tagPairsGo opns clss cs skip
  | c :: cs, 0 =>
    match firstCI opns (c :: cs) with
    | some ko =>
      match findCloseCI clss ((c :: cs).drop ko) with
      | some (content, kc) =>
        content :: tagPairsGo opns clss cs (ko + content.length + kc - 1)
      | none => tagPairsGo opns clss cs 0
    | none => tagPairsGo opns clss cs 0

/-- All `/<tr>([\s\S]*?)<\/tr>/gi` match contents. -/
def trContents (cs : List Char) : List (List Char) :=
  tagPairsGo ["<tr>".data] ["</tr>".data] cs 0

/-- All `/<(?:th|td)>([\s\S]*?)<\/(?:th|td)>/gi` match contents. -/
def cellContents (cs : List Char) : List (List Char) :=
  tagPairsGo ["<th>".data, "<td>".data] ["</th>".data, "</td>".data] cs 0

/-- Collapse each maximal whitespace run to a single space
(`.replace(/\s+/g, ' ')`). -/
def collapseWs : List Char → List Char
  | [] => []
  | c :: cs =>
    if c.isWhitespace then
      match cs with
      | [] => [' ']
      | d :: _ => if d.isWhitespace then collapseWs cs else ' ' :: collapseWs cs
    else c :: collapseWs cs

/-- Cell cleanup inside `convertHtmlTableToMarkdown`: trim, decode the fixed
entity set (`&nbsp; &amp; &lt; &gt; &quot; &#39;`), collapse whitespace,
trim. -/
def decodeHtmlCell (cs : List Char) : List Char :=
  jsTrim (collapseWs
    (replaceAll "&#39;".data [squote]
      (replaceAll "&quot;".data [dquote]
        (replaceAll "&gt;".data ">".data
          (replaceAll "&lt;".data "<".data
            (replaceAll "&amp;".data "&".data
              (replaceAll "&nbsp;".data " ".data (jsTrim cs))))))))

/-- Join pieces with a separator (JS `Array.prototype.join`). -/
def joinSep (sep : List Char) : List (List Char) → List Char
  | [] => []
  | [l] => l
  | l :: ls => l ++ sep ++ joinSep sep ls

/-- `convertHtmlTableToMarkdown` from table.ts: scan `<tr>` rows and
`<th>/<td>` cells, decode entities, join cells with `|` delimiters, and — when
at least two rows are present — insert a `---` header-separator row after
row 0. -/
def convertHtmlTableToMarkdown (htmlTableContent : List Char) : List Char :=
  let rows := ((trContents htmlTableContent).map
    (fun rc => (cellContents rc).map decodeHtmlCell)).filter (fun cells => cells ≠ [])
  if rows = [] then []
  else
    let markdownRows := rows.map (fun row =>
      "| ".data ++ joinSep " | ".data row ++ " |".data)
    let markdownRows :=
      if rows.length ≥ 2 then
        let separator := "| ".data ++
          joinSep " | ".data ((rows.headD []).map (fun _ => "---".data)) ++ " |".data
        markdownRows.take 1 ++ separator :: markdownRows.drop 1
      else markdownRows
    joinNl markdownRows

/-- Strip HTML tags (`.replace(/<[^>]*>/g, '')`); `skip` counts remaining
characters of a removed tag. -/
def stripTagsGo : Nat → List Char → List Char
  | _, [] => []
  | skip+1, _ :: cs => stripTagsGo skip cs
  | 0, c :: cs =>
    if c = '<' then
      let inner := cs.takeWhile (fun x => x ≠ '>')
      if cs.drop inner.length ≠ [] then stripTagsGo (inner.length + 1) cs
      else c :: stripTagsGo 0 cs
    else c :: stripTagsGo 0 cs

/-- `cleanCellContent` from `createVisualTableElements`: strip tags, decode
entities (`&amp;` last), trim. -/
def cleanCellContent (cs : List Char) : List Char :=
  jsTrim
    (replaceAll "&amp;".data "&".data
      (replaceAll "&#39;".data [squote]
        (replaceAll "&quot;".data [dquote]
          (replaceAll "&gt;".data ">".data
            (replaceAll "&lt;".data "<".data (stripTagsGo 0 cs))))))

/-- Split at a separator character, keeping empty pieces
(JS `String.prototype.split` with a character separator). -/
def splitOnC (sep : Char) : List Char → List (List Char)
  | [] => [[]]
  | c :: cs =>
    let r := splitOnC sep cs
    if c = sep then [] :: r
    else
      match r with
      | [] => [[c]]
      | l :: ls => (c :: l) :: ls

/-- JS `arr.slice(1, -1)`: drop the first and last element. -/
def slice1m1 {α : Type} (l : List α) : List α := (l.drop 1).dropLast

/-- CSV-ish fallback split on `/\s{2,}|\t|,/` (alternation tried in that
order at each position: a whitespace run of length ≥ 2 — which may include
tabs — is one delimiter, else a single tab or comma).  The Boolean state
records that the scanner is inside such a whitespace run. -/
def csvSplitGo : List Char → List Char → Bool → List (List Char)
  | [], _, true => [[]]
  | [], buf, false => [buf.reverse]
  | c :: cs, buf, true =>
    if c.isWhitespace then csvSplitGo cs buf true
    else if c = ',' then [] :: csvSplitGo cs [] false
    else csvSplitGo cs [c] false
  | c :: cs, buf, false =>
    if c.isWhitespace ∧ (cs.headD 'x').isWhitespace then
      buf.reverse :: csvSplitGo cs [] true
    else if c = '\t' ∨ c = ',' then buf.reverse :: csvSplitGo cs [] false
    else csvSplitGo cs (c :: buf) false

/-- The TableGrid parse of `createVisualTableElements` (table.ts lines
76–92): pipe-delimited rows when the markdown contains `|` (separator row
discarded), otherwise the CSV-ish fallback. -/
def parseTableRows (tableMarkdown : List Char) : List (List (List Char)) :=
  let lines := (splitNl (jsTrim tableMarkdown)).filter (fun l => jsTrim l ≠ [])
  if tableMarkdown.contains '|' then
    let rows := lines.map (fun line =>
      (slice1m1 (splitOnC '|' line)).map cleanCellContent)
    if rows.length > 1 ∧
        ((rows.getD 1 []).all (fun cell => cell ≠ [] ∧ cell.all (fun c => c = '-'))) then
      rows.eraseIdx 1
    else rows
  else
    lines.map (fun line =>
      ((csvSplitGo line [] false).filter (fun cell => jsTrim cell ≠ [])).map cleanCellContent)

/-- `getTextWidth` from table.ts: estimated pixel width of a cell text at a
font size — `ceil(len·(0.8·fs) + max(50, 0.6·(len·0.8·fs)))`, with 150 for
empty text. -/
def getTextWidth (text : List Char) (fontSize : Rat) : Rat :=
  if text = [] then 150
  else
    let avgCharWidth := fontSize * (4/5)
    let textWidth := (text.length : Rat) * avgCharWidth
    let padding := max 50 (textWidth * (3/5))
    (Rat.ceil (textWidth + padding) : Rat)

/-- Per-row update of the running per-column minimum widths. -/
def updColWidths (fs : Rat) (numCols : Nat) (acc : List Rat)
    (row : List (List Char)) : List Rat :=
  row.enum.foldl (fun a (p : Nat × List Char) =>
    if p.1 < numCols then a.set p.1 (max (a.getD p.1 0) (getTextWidth p.2 fs))
    else a) acc

/-- The initial column widths: the per-column maximum of `getTextWidth` over
all cells (header row at font size 20, body rows at 16). -/
def initColWidths (rows : List (List (List Char))) : List Rat :=
  let numCols := (rows.headD []).length
  rows.enum.foldl (fun acc (p : Nat × List (List Char)) =>
    updColWidths (if p.1 = 0 then 20 else 16) numCols acc p.2)
    (List.replicate numCols (0 : Rat))

/-- First width pass: clamp each column into `[minColWidth, maxColWidth]`
= `[150, 600]`. -/
def clampColWidths (ws : List Rat) : List Rat :=
  ws.map (fun w => max 150 (min 600 w))

/-- Second width pass: when the total exceeds `maxTotalWidth = 1400`, scale
every column by `1400/total`, floor, and re-apply the per-column minimum. -/
def scaleColWidths (ws : List Rat) : List Rat :=
  let totalWidth := ws.foldl (· + ·) 0
  if totalWidth > 1400 then
    let scaleFactor := 1400 / totalWidth
    ws.map (fun w => max 150 ((Rat.floor (w * scaleFactor) : Int) : Rat))
  else ws

/-- The complete column-width computation of `createVisualTableElements`. -/
def computeColWidths (rows : List (List (List Char))) : List Rat :=
  scaleColWidths (clampColWidths (initColWidths rows))

/-- Word-wrap loop of `wrapText`: greedily pack words while the line length
stays within `m` characters; split an overlong first word mid-word. -/
def wrapWords (m : Int) : List (List Char) → List Char → List (List Char)
  | [], cur => if cur ≠ [] then [cur] else []
  | w :: ws, cur =>
    let testLine := if cur = [] then w else cur ++ ' ' :: w
    if (testLine.length : Int) ≤ m then wrapWords m ws testLine
    else if cur ≠ [] then cur :: wrapWords m ws w
    else if (w.length : Int) > m then
      w.take (max 0 m).toNat :: wrapWords m ws (w.drop (max 0 m).toNat)
    else wrapWords m ws w

/-- `wrapText` from table.ts: wrap `text` to fit a box of width `maxWidth` at
`fontSize`, estimating `floor((maxWidth − 20) / (0.6·fontSize))` characters
per line; newline-joined. -/
def wrapText (text : List Char) (maxWidth fontSize : Rat) : List Char :=
  if text = [] then []
  else
    let avgCharWidth := fontSize * (3/5)
    let availableWidth := maxWidth - 20
    let maxCharsPerLine := Rat.floor (availableWidth / avgCharWidth)
    if (text.length : Int) ≤ maxCharsPerLine then text
    else joinNl (wrapWords maxCharsPerLine (splitOnC ' ' text) [])

/-- Height of one row: the maximum over its cells of
`max(60, wrapped-line-count · 1.25·fontSize + 20)`. -/
def rowHeightOf (colWidths : List Rat) (numCols : Nat) (fs : Rat)
    (row : List (List Char)) : Rat :=
  row.enum.foldl (fun m (p : Nat × List Char) =>
    if p.1 < numCols then
      let cw := colWidths.getD p.1 0
      let wrapped := wrapText p.2 cw fs
      let lineCount := (splitNl wrapped).length
      max m (max 60 ((lineCount : Rat) * (fs * (5/4)) + 20))
    else m) 60

/-- Cumulative row Y positions (each row starts where the previous ended). -/
def cumulY (startY : Rat) : List Rat → List Rat
  | [] => []
  | h :: hs => startY :: cumulY (startY + h) hs

/-- Emit the rectangle + centered-text pair for each cell of one row,
advancing the running X by each column's width. -/
def cellGo (colWidths : List Rat) (numCols : Nat) (fs rowHeight y : Rat) :
    List (Nat × List Char) → Rat → List Elem
  | [], _ => []
  | (ci, cell) :: rest, currentX =>
    if ci < numCols then
      let cw := colWidths.getD ci 0
      let wrapped := wrapText cell cw fs
      let lineCount := (splitNl wrapped).length
      { typ := "rectangle", x := currentX, y := y, width := cw,
        height := rowHeight, text := "", fontSize := 0,
        strokeColor := "#1e1e1e" } ::
      { typ := "text", x := currentX + cw / 2, y := y + rowHeight / 2,
        width := cw - 20, height := fs * (6/5) * (lineCount : Rat),
        text := wrapped.asString, fontSize := fs, strokeColor := "#1e1e1e" } ::
      cellGo colWidths numCols fs rowHeight y rest (currentX + cw)
    else cellGo colWidths numCols fs rowHeight y rest currentX

/-- `createVisualTableElements` from table.ts: parse the TableGrid, compute
column widths and row heights, then emit one rectangle and one centered text
primitive per cell at cumulative row positions. -/
def createVisualTableElements (tableMarkdown : List Char) (startX startY : Rat) :
    List Elem :=
  let lines := (splitNl (jsTrim tableMarkdown)).filter (fun l => jsTrim l ≠ [])
  if lines.length < 2 then []
  else
    let rows := parseTableRows tableMarkdown
    if rows = [] then []
    else
      let numCols := (rows.headD []).length
      let colWidths := computeColWidths rows
      let rowHeights := rows.enum.map (fun (p : Nat × List (List Char)) =>
        rowHeightOf colWidths numCols (if p.1 = 0 then 20 else 16) p.2)
      let rowYs := cumulY startY rowHeights
      (rows.enum).flatMap (fun (p : Nat × List (List Char)) =>
        cellGo colWidths numCols (if p.1 = 0 then 20 else 16)
          (rowHeights.getD p.1 0) (rowYs.getD p.1 0) p.2.enum startX)

/-! ## Text Segmenter (markdown.ts, `/<latex>(.*?)<\/latex>/g` scan)

The scan at markdown.ts lines 59–88 / 391–420: split a text blob into plain
text parts and equation parts. -/

/-- A segment produced by the Text Segmenter. -/
inductive Seg where
  | text (s : List Char)
  | latex (s : List Char)
deriving Repr, DecidableEq

/-- Split at the first occurrence of `pat`: `some (before, after)` when `pat`
occurs, scanning left to right. -/
def findPat (pat : List Char) : List Char → Option (List Char × List Char)
  | [] => none
  | c :: cs =>
    if pat.isPrefixOf (c :: cs) then some ([], (c :: cs).drop pat.length)
    else
      match findPat pat cs with
      | some (pre, post) => some (c :: pre, post)
      | none => none

/-- Whether `pat` occurs as a contiguous sublist (JS `String.includes`). -/
def containsPat (pat : List Char) : List Char → Bool
  | [] => pat.isEmpty
  | c :: cs => pat.isPrefixOf (c :: cs) || containsPat pat cs

/-- The ECMAScript line terminators, which `.` (without the `s` flag)
cannot match: LF, CR, LINE SEPARATOR, PARAGRAPH SEPARATOR. -/
def isLineTerm (c : Char) : Bool :=
  c = '\n' || c = '\r' || c = Char.ofNat 8232 || c = Char.ofNat 8233

/-- The `/<latex>(.*?)<\/latex>/g` exec loop: `buf` holds the (reversed)
text scanned since the last match, `skip` the remaining characters of an
emitted match.  A `<latex>` opener matches only if a `</latex>` closer
follows (lazy content = up to the first closer) and the content contains
no line terminator (`.` does not match them; a later closer cannot help,
as its longer content would still contain the terminator, so the scan
moves on by one character); text before a match is pushed only when
non-empty; when no closer exists at all, no further match exists and the
remaining text (from the last match end) is pushed if non-empty.  Matched
content is trimmed. -/
def latexGo : List Char → List Char → Nat → List Seg
  | [], buf, _ => if buf = [] then [] else [.text buf.reverse]
  | _ :: cs, buf, skip+1 => latexGo cs buf skip
  | c :: cs, buf, 0 =>
    if "<latex>".data.isPrefixOf (c :: cs) then
      match findPat "</latex>".data ((c :: cs).drop 7) with
      | some (content, _) =>
        if content.any isLineTerm then latexGo cs (c :: buf) 0
        else
          (if buf = [] then [] else [.text buf.reverse]) ++
          .latex (jsTrim content) :: latexGo cs [] (content.length + 14)
      | none => [.text (buf.reverse ++ c :: cs)]
    else latexGo cs (c :: buf) 0

/-- The Text Segmenter: the list of parts produced by the regex scan. -/
def latexParts (textContent : List Char) : List Seg := latexGo textContent [] 0

/-! ## Document Walker (markdown.ts, `convertMarkdownTreeToElements`)

The document tree (untyped mdast nodes in the source) as a closed variant;
`MdList` is the children list (mutual with `MdNode` so that all traversals
are structural).  `listItem` carries the `parent.ordered` / `parent.start`
fields the bullet logic reads (absent parent ≡ `parentOrdered = false`);
`other` stands for any node type outside the explicit dispatch list (e.g.
`strong`, `emphasis`), which only recurses into children. -/

mutual
inductive MdNode where
  | heading (depth : Nat) (children : MdList)
  | paragraph (children : MdList)
  | html (value : List Char)
  | table (children : MdList)
  | thematicBreak
  | list (children : MdList)
  | listItem (parentOrdered : Bool) (parentStart : Rat) (children : MdList)
  | text (value : List Char)
  | other (children : MdList)
deriving Repr
inductive MdList where
  | nil
  | cons (hd : MdNode) (tl : MdList)
deriving Repr
end

/-- Untyped `node.children` access (value-only nodes have none). -/
def childrenOf : MdNode → MdList
  | .heading _ ch => ch
  | .paragraph ch => ch
  | .html _ => .nil
  | .table ch => ch
  | .thematicBreak => .nil
  | .list ch => ch
  | .listItem _ _ ch => ch
  | .text _ => .nil
  | .other ch => ch

/-- Map over an `MdList` into an ordinary list. -/
def mdMap {α : Type} (f : MdNode → α) : MdList → List α
  | .nil => []
  | .cons h t => f h :: mdMap f t

mutual
/-- `getText` from `convertMarkdownTreeToElements`: `node.value` when truthy,
else the concatenation over children. -/
def getText : MdNode → List Char
  | .text v => v
  | .html v => v
  | .heading _ ch => getTexts ch
  | .paragraph ch => getTexts ch
  | .table ch => getTexts ch
  | .thematicBreak => []
  | .list ch => getTexts ch
  | .listItem _ _ ch => getTexts ch
  | .other ch => getTexts ch
def getTexts : MdList → List Char
  | .nil => []
  | .cons h t => getText h ++ getTexts t
end

mutual
/-- `collectAllText`: the value of `text` nodes, recursively joined over
children otherwise (an `html` node — type ≠ `text`, no children — yields
the empty string). -/
def collectAll : MdNode → List Char
  | .text v => v
  | .html _ => []
  | .thematicBreak => []
  | .heading _ ch => collectAllL ch
  | .paragraph ch => collectAllL ch
  | .table ch => collectAllL ch
  | .list ch => collectAllL ch
  | .listItem _ _ ch => collectAllL ch
  | .other ch => collectAllL ch
def collectAllL : MdList → List Char
  | .nil => []
  | .cons h t => collectAll h ++ collectAllL t
end

/-- An element returned by the external `parseMermaid` + `graphToExcalidraw`
pipeline: only the fields the walker reads (`x`, `y`, `height`, each possibly
absent). -/
structure DiagElem where
  x : Option Rat
  y : Option Rat
  height : Option Rat
deriving Repr, DecidableEq

/-- The walker's environment: the Equation Rasterizer (`convertLatexToImage`,
returning a data URL or the empty-string sentinel — it catches its own
exceptions), the diagram pipeline (`parseMermaid` ∘ `graphToExcalidraw`,
which may throw, modelled as `Except` carrying the error message), the
pre-extracted `tableBlocks`, and the layout origin `startX`. -/
structure WalkEnv where
  render : List Char → List Char
  parseDiag : List Char → Except (List Char) (List DiagElem)
  tableBlocks : List (List Char)
  startX : Rat

/-- JS `arr.slice(start, -negEnd)` on characters. -/
def jsSlice (cs : List Char) (start negEnd : Nat) : List Char :=
  (cs.take (cs.length - negEnd)).drop start

/-- `(element.y || 0) + (element.height || 20)` on a positioned diagram
element (`0` is falsy in JS, so a zero/absent height falls back to 20). -/
def diagBottom (e : Elem) : Rat := e.y + (if e.height = 0 then 20 else e.height)

/-- `Math.max(...)` over a non-empty list (`0` for the empty list, which the
call sites guard against). -/
def listMax : List Rat → Rat
  | [] => 0
  | x :: xs => xs.foldl max x

/-- `Math.min(...)` over a non-empty list. -/
def listMin : List Rat → Rat
  | [] => 0
  | x :: xs => xs.foldl min x

/-- The table-height cursor advance repeated verbatim at the three
table-emitting sites of `traverse` (html-table, markdown table and
TABLE_BLOCK): bounding-box height of the rectangle primitives plus 30, or a
fixed 200 fallback when no text/rectangle primitives resulted. -/
def tableHeightAdvance (tableElements : List Elem) (currentY : Rat) : Rat :=
  let textElements := tableElements.filter (fun e => e.typ = "text")
  let rectangleElements := tableElements.filter (fun e => e.typ = "rectangle")
  if textElements.length > 0 ∧ rectangleElements.length > 0 then
    let maxY := listMax (rectangleElements.map (fun e => e.y + e.height))
    let minY := listMin (rectangleElements.map (fun e => e.y))
    currentY + (maxY - minY) + 30
  else currentY + 200

/-- The Mermaid-handling block of the `html` branch (markdown.ts 624–738,
duplicated verbatim as the first `<table>` branch at 862–976): preprocess,
parse, position the returned elements at the current origin, and advance the
cursor past the measured diagram height + 50 — with a placeholder on zero
elements and an error-styled fallback when the parse throws. -/
def mermaidBranch (env : WalkEnv) (code : List Char) (depth : Nat) (y : Rat) :
    List Elem × Rat :=
  let processed := preprocessMermaidCode code.asString
  match env.parseDiag processed.data with
  | .ok els =>
    if els ≠ [] then
      let offX := env.startX + (depth : Rat) * 20
      let positioned := els.map (fun el =>
        { typ := "diagram", x := el.x.getD 0 + offX, y := el.y.getD 0 + y,
          width := 0, height := el.height.getD 0, text := "", fontSize := 0,
          strokeColor := "" : Elem })
      let maxY := positioned.foldl (fun m e => max m (diagBottom e)) y
      (positioned, maxY + 50)
    else
      ([{ typ := "text", x := env.startX + (depth : Rat) * 20, y := y,
          width := 400, height := 30,
          text := "Mermaid diagram (no elements generated)", fontSize := 16,
          strokeColor := "#007acc" }], y + 50)
  | .error msg =>
    ([{ typ := "text", x := env.startX + (depth : Rat) * 20, y := y,
        width := 400, height := 30,
        text := ("Error rendering mermaid: " ++ msg.asString),
        fontSize := 16, strokeColor := "#ff0000" }], y + 50)

/-- The dedicated html-table block (markdown.ts 977–1033; unreachable in the
source because its condition repeats the previous branch's): convert to
markdown and emit the visual grid, or an error-styled fallback when the
conversion is blank. -/
def htmlTableBranch (env : WalkEnv) (v : List Char) (depth : Nat) (y : Rat) :
    List Elem × Rat :=
  let tableMarkdown := convertHtmlTableToMarkdown v
  if jsTrim tableMarkdown ≠ [] then
    let tableElements :=
      createVisualTableElements tableMarkdown (env.startX + (depth : Rat) * 20) y
    (tableElements, tableHeightAdvance tableElements y)
  else
    ([{ typ := "text", x := env.startX + (depth : Rat) * 20, y := y,
        width := 400, height := 30, text := "Error: Could not parse HTML table",
        fontSize := 14, strokeColor := "#ff0000" }], y + 50)

/-- The `html` node dispatch of `traverse` (markdown.ts 622–1070), in source
order: `<mermaid>` wrapper → `<latex>` wrapper → content containing
`<table>`/`</table>` (which runs the *Mermaid* code, slicing the content as
if it wore `<mermaid>` wrappers) → the same condition again (the dedicated
table branch, dead code) → strip tags and emit plain text. -/
def htmlBranch (env : WalkEnv) (v : List Char) (depth : Nat) (y : Rat) :
    List Elem × Rat :=
  if "<mermaid>".data.isPrefixOf v ∧ "</mermaid>".data.isSuffixOf v then
    mermaidBranch env (jsTrim (jsSlice v 9 10)) depth y
  else if "<latex>".data.isPrefixOf v ∧ "</latex>".data.isSuffixOf v then
    let latexCode := jsTrim (jsSlice v 7 8)
    if env.render latexCode ≠ [] then
      ([{ typ := "image", x := env.startX + (depth : Rat) * 20, y := y,
          width := 400, height := 60, text := "", fontSize := 0,
          strokeColor := "transparent" }], y + 80)
    else
      ([{ typ := "text", x := env.startX + (depth : Rat) * 20, y := y,
          width := 400, height := 30,
          text := ("LaTeX: " ++ latexCode.asString), fontSize := 16,
          strokeColor := "#ff6b35" }], y + 50)
  else if containsPat "<table>".data v ∧ containsPat "</table>".data v then
    mermaidBranch env (jsTrim (jsSlice v 9 10)) depth y
  else if containsPat "<table>".data v ∧ containsPat "</table>".data v then
    htmlTableBranch env v depth y
  else
    let cleanText := jsTrim (stripTagsGo 0 v)
    if cleanText ≠ [] then
      ([{ typ := "text", x := env.startX + (depth : Rat) * 20, y := y,
          width := 400, height := 30, text := cleanText.asString,
          fontSize := 14, strokeColor := "#000000" }], y + 30)
    else ([], y)

/-- Digits of a `\d+` match as a number (JS `parseInt`). -/
def digitsToNat (ds : List Char) : Nat :=
  ds.foldl (fun n c => n * 10 + (c.toNat - 48)) 0

/-- First `/TABLE_BLOCK_(\d+)/` match in a text value, as its index. -/
def tableBlockIndex : List Char → Option Nat
  | [] => none
  | c :: cs =>
    if "TABLE_BLOCK_".data.isPrefixOf (c :: cs) then
      let ds := ((c :: cs).drop 12).takeWhile (fun d => d.isDigit)
      if ds ≠ [] then some (digitsToNat ds) else tableBlockIndex cs
    else tableBlockIndex cs

/-- The standalone `text` node branch of `traverse` (markdown.ts 1165–1266):
a `TABLE_BLOCK_n` marker substitutes the n-th pre-extracted table (emitting
nothing at all when `n` is out of range — the guard has no else); other text
emits one plain primitive. -/
def textBranch (env : WalkEnv) (v : List Char) (depth : Nat) (y : Rat) :
    List Elem × Rat :=
  match tableBlockIndex v with
  | some blockIndex =>
    if blockIndex < env.tableBlocks.length then
      let htmlTableContent := env.tableBlocks.getD blockIndex []
      let tableMarkdown := convertHtmlTableToMarkdown htmlTableContent
      if jsTrim tableMarkdown ≠ [] then
        let tableElements := createVisualTableElements tableMarkdown
          (env.startX + (depth : Rat) * 20) y
        (tableElements, tableHeightAdvance tableElements y)
      else
        ([{ typ := "text", x := env.startX + (depth : Rat) * 20, y := y,
            width := 400, height := 30,
            text := "Error: Could not parse HTML table", fontSize := 14,
            strokeColor := "#ff0000" }], y + 50)
    else ([], y)
  | none =>
    ([{ typ := "text", x := env.startX + (depth : Rat) * 20, y := y,
        width := 300, height := 30, text := v.asString, fontSize := 14,
        strokeColor := "#000000" }], y + 30)

/-- The `heading` branch: one text primitive at font size
`max(12, 20 − 2·level)`, cursor advanced by `fontSize + 20`. -/
def headingBranch (env : WalkEnv) (hd : Nat) (ch : MdList) (depth : Nat)
    (y : Rat) : List Elem × Rat :=
  let fontSize : Rat := max 12 (20 - (hd : Rat) * 2)
  ([{ typ := "text", x := env.startX + (depth : Rat) * 20, y := y,
      width := 200, height := fontSize + 10, text := (getTexts ch).asString,
      fontSize := fontSize, strokeColor := "#000000" }], y + fontSize + 20)

/-- The `listItem` branch: `"- "` bullet, or `"N. "` when the parent list is
ordered (start defaulting to 1); cursor advanced by 30. -/
def listItemBranch (env : WalkEnv) (parentOrdered : Bool) (parentStart : Rat)
    (ch : MdList) (depth : Nat) (y : Rat) : List Elem × Rat :=
  let bullet : String :=
    if parentOrdered then
      toString (if parentStart = 0 then (1 : Rat) else parentStart) ++ ". "
    else "- "
  ([{ typ := "text", x := env.startX + (depth : Rat) * 20, y := y,
      width := 350, height := 30, text := bullet ++ (getTexts ch).asString,
      fontSize := 14, strokeColor := "#000000" }], y + 30)

/-- The `thematicBreak` branch: one fixed 300-wide horizontal line at
`y + 10`; cursor advanced by 30. -/
def breakBranch (env : WalkEnv) (depth : Nat) (y : Rat) : List Elem × Rat :=
  ([{ typ := "line", x := env.startX + (depth : Rat) * 20, y := y + 10,
      width := 300, height := 0, text := "", fontSize := 0,
      strokeColor := "#000000" }], y + 30)

/-- The `table` branch: collect cell text per row, build pipe-delimited
markdown, delegate to the Table Formatter, and advance by the computed
height. -/
def tableBranch (env : WalkEnv) (ch : MdList) (depth : Nat) (y : Rat) :
    List Elem × Rat :=
  let tableRows := mdMap (fun row => mdMap getText (childrenOf row)) ch
  let tableMarkdown := joinNl (tableRows.map (fun row =>
    "| ".data ++ joinSep " | ".data row ++ " |".data))
  let tableElements :=
    createVisualTableElements tableMarkdown (env.startX + (depth : Rat) * 20) y
  (tableElements, tableHeightAdvance tableElements y)

/-- The per-part emission of the paragraph branch (markdown.ts 423–574):
an equation part becomes an inline image (+50) or, when the rasterizer
returns its empty sentinel, an orange `LaTeX:`-prefixed fallback text (+25);
a non-blank text part becomes a plain text primitive (+25). -/
def partsLoop (env : WalkEnv) (depth : Nat) : List Seg → Rat → List Elem × Rat
  | [], y => ([], y)
  | .latex content :: ps, y =>
    if env.render content ≠ [] then
      let r := partsLoop env depth ps (y + 50)
      ({ typ := "image", x := env.startX + (depth : Rat) * 20, y := y,
         width := 200, height := 40, text := "", fontSize := 0,
         strokeColor := "transparent" } :: r.1, r.2)
    else
      let r := partsLoop env depth ps (y + 25)
      ({ typ := "text", x := env.startX + (depth : Rat) * 20, y := y,
         width := 200, height := 20,
         text := ("LaTeX: " ++ content.asString), fontSize := 14,
         strokeColor := "#ff6b35" } :: r.1, r.2)
  | .text content :: ps, y =>
    if jsTrim content ≠ [] then
      let r := partsLoop env depth ps (y + 25)
      ({ typ := "text", x := env.startX + (depth : Rat) * 20, y := y,
         width := 400, height := 20, text := content.asString, fontSize := 14,
         strokeColor := "#000000" } :: r.1, r.2)
    else partsLoop env depth ps y

mutual
/-- `traverse` from `convertMarkdownTreeToElements`: dispatch on the node
type, returning the emitted primitives and the updated cursor.  Node types
outside the explicit list (`list`, `other`) emit nothing and recurse into
children at `depth + 1`. -/
def traverse (env : WalkEnv) : MdNode → Nat → Rat → List Elem × Rat
  | .heading hd ch, depth, y => headingBranch env hd ch depth y
  | .paragraph ch, depth, y =>
    let r := paraLoop env ch depth y false
    if r.2.2 then (r.1, r.2.1)
    else
      let fullText := collectAllL ch
      if jsTrim fullText ≠ [] then
        ([{ typ := "text", x := env.startX + (depth : Rat) * 20, y := r.2.1,
            width := 400, height := 30, text := fullText.asString,
            fontSize := 14, strokeColor := "#000000" }], r.2.1 + 30)
      else ([], r.2.1)
  | .html v, depth, y => htmlBranch env v depth y
  | .table ch, depth, y => tableBranch env ch depth y
  | .thematicBreak, depth, y => breakBranch env depth y
  | .list ch, depth, y => traverseList env ch (depth + 1) y
  | .listItem po ps ch, depth, y => listItemBranch env po ps ch depth y
  | .text v, depth, y => textBranch env v depth y
  | .other ch, depth, y => traverseList env ch (depth + 1) y

/-- Generic children traversal (for node types not in the explicit dispatch
list), threading the cursor left to right. -/
def traverseList (env : WalkEnv) : MdList → Nat → Rat → List Elem × Rat
  | .nil, _, y => ([], y)
  | .cons n ns, depth, y =>
    let r1 := traverse env n depth y
    let r2 := traverseList env ns depth r1.2
    (r1.1 ++ r2.1, r2.2)

/-- The paragraph children loop (markdown.ts 382–580): `html` children are
traversed in place (marking the paragraph special), `text` children are
segmented and emitted part by part (marking it special whenever the part
list is non-empty — i.e. whenever the text is non-empty), all other children
are ignored.  Returns (elements, cursor, hasSpecialContent). -/
def paraLoop (env : WalkEnv) : MdList → Nat → Rat → Bool →
    List Elem × Rat × Bool
  | .nil, _, y, sp => ([], y, sp)
  | .cons (MdNode.html v) cs, depth, y, _ =>
    let r1 := traverse env (MdNode.html v) depth y
    let r2 := paraLoop env cs depth r1.2 true
    (r1.1 ++ r2.1, r2.2)
  | .cons (MdNode.text v) cs, depth, y, sp =>
    let parts := latexParts v
    let r1 := partsLoop env depth parts y
    let sp1 := if parts.length > 0 then true else sp
    let r2 := paraLoop env cs depth r1.2 sp1
    (r1.1 ++ r2.1, r2.2)
  | .cons _ cs, depth, y, sp => paraLoop env cs depth y sp
end

/-- The top-level driver of `convertMarkdownTreeToElements`: traverse the
tree's children in order at depth 0, threading the shared cursor.  (The
source additionally converts each child's primitives to native elements,
pushes an incremental scene snapshot and sleeps 1s between children — host
I/O with no effect on the computed primitives.) -/
def convertMarkdownTreeToElements (env : WalkEnv) (children : MdList)
    (startY : Rat) : List Elem × Rat :=
  traverseList env children 0 startY

/-- The cursor values read at the start of processing each top-level
child. -/
def topLevelYs (env : WalkEnv) : MdList → Rat → List Rat
  | .nil, _ => []
  | .cons c cs, y => y :: topLevelYs env cs (traverse env c 0 y).2

/-- A concrete walker environment: failing rasterizer (empty sentinel),
erroring diagram parser, no extracted table blocks, origin 0. -/
def failingEnv : WalkEnv :=
  { render := fun _ => [], parseDiag := fun _ => .error "boom".data,
    tableBlocks := [], startX := 0 }

/-- The paragraph of the C2 end-to-end scenario (the code's equation marker
is the `<latex>` tag). -/
def energyPara : MdNode :=
  .paragraph (.cons (.text "Energy: <latex>E=mc^2</latex> is conserved.".data) .nil)

/-- A paragraph mixing a non-empty plain-text child with a `strong`-style
child (no html child, no equation markers anywhere). -/
def mixedPara : MdNode :=
  .paragraph (.cons (.text "Hi ".data)
    (.cons (.other (.cons (.text "there".data) .nil)) .nil))

/-- No paragraph child is an `html` node and every direct `text` child is
empty — the condition under which the source's `hasSpecialContent` flag
stays false. -/
def noSpecialChildren : MdList → Bool
  | .nil => true
  | .cons (MdNode.html _) _ => false
  | .cons (MdNode.text v) t => v.isEmpty && noSpecialChildren t
  | .cons _ t => noSpecialChildren t

/-! ## Alternate normalizer `processMermaidCode` (src/app/utils/diagrams.ts)

The lighter-weight diagram normalizer: fence extraction, brace → bracket,
label force-quoting, id sanitizing, label escaping, default-header injection,
line dedup, and hard size caps (exceeding either cap throws). -/

/-- Strip a trailing whitespace run. -/
def dropTrailingWs (cs : List Char) : List Char :=
  (cs.reverse.dropWhile (fun c => c.isWhitespace)).reverse

/-- Step 1: the `/```(?:mermaid)?\s*([\s\S]*?)\s*```/` extraction —
content between the first fence (with optional `mermaid` tag and following
whitespace) and the next fence, trailing whitespace stripped; `none` when no
fenced block exists. -/
def extractFence (cs : List Char) : Option (List Char) :=
  match findPat "```".data cs with
  | none => none
  | some (_, rest) =>
    let rest2 := if "mermaid".data.isPrefixOf rest then rest.drop 7 else rest
    let rest3 := rest2.dropWhile (fun c => c.isWhitespace)
    match findPat "```".data rest3 with
    | some (content, _) => some (dropTrailingWs content)
    | none => none

/-- Step 2: `/\{([^}]*)\}/g` → `[$1]` (empty content allowed). -/
def braceToBracketGo : Nat → List Char → List Char
  | _, [] => []
  | skip+1, _ :: cs => braceToBracketGo skip cs
  | 0, c :: cs =>
    if c = '\x7b' then
      let content := cs.takeWhile (fun x => x ≠ '\x7d')
      if cs.drop content.length ≠ [] then
        ('[' :: content ++ [']']) ++ braceToBracketGo (content.length + 1) cs
      else c :: braceToBracketGo 0 cs
    else c :: braceToBracketGo 0 cs

/-- Step 3: `/(\[[^\]"']+?\])/g` → `["trimmed-inner"]` — force-quote every
bracket whose non-empty content has no quote or closing bracket. -/
def quoteLabelsGo : Nat → List Char → List Char
  | _, [] => []
  | skip+1, _ :: cs => quoteLabelsGo skip cs
  | 0, c :: cs =>
    if c = '[' then
      let content := cs.takeWhile (fun x => x ≠ ']' ∧ x ≠ dquote ∧ x ≠ squote)
      if content ≠ [] ∧ (cs.drop content.length).headD ' ' = ']' then
        ('[' :: dquote :: (jsTrim content ++ [dquote, ']'])) ++
          quoteLabelsGo (content.length + 1) cs
      else c :: quoteLabelsGo 0 cs
    else c :: quoteLabelsGo 0 cs

/-- Step 4 replacement: `/^([^\s\[\]]+)\[/` per line — sanitize a leading
node identifier to `[A-Za-z0-9_]`. -/
def safeIdLine (l : List Char) : List Char :=
  let idpart := l.takeWhile (fun c => ¬ c.isWhitespace ∧ c ≠ '[' ∧ c ≠ ']')
  if idpart ≠ [] ∧ (l.drop idpart.length).headD ' ' = '[' then
    idpart.map (fun c => if c.isAlphanum ∨ c = '_' then c else '_') ++
      l.drop idpart.length
  else l

/-- Step 5 label escaping: `& < > "` → entities (ampersand first). -/
def escLabel (content : List Char) : List Char :=
  replaceAll [dquote] "&quot;".data
    (replaceAll ">".data "&gt;".data
      (replaceAll "<".data "&lt;".data
        (replaceAll "&".data "&amp;".data content)))

/-- Step 5: `/\["([^"]*)"\]/g` — escape dangerous characters inside
already-quoted labels. -/
def escapeLabelsGo : Nat → List Char → List Char
  | _, [] => []
  | skip+1, _ :: cs => escapeLabelsGo skip cs
  | 0, c :: cs =>
    if c = '[' ∧ cs.headD ' ' = dquote then
      let afterQ := cs.drop 1
      let content := afterQ.takeWhile (fun x => x ≠ dquote)
      let rest := afterQ.drop content.length
      if rest.headD ' ' = dquote ∧ (rest.drop 1).headD ' ' = ']' then
        ('[' :: dquote :: (escLabel content ++ [dquote, ']'])) ++
          escapeLabelsGo (content.length + 3) cs
      else c :: escapeLabelsGo 0 cs
    else c :: escapeLabelsGo 0 cs

/-- Step 6 test: `/^(flowchart|graph|sequenceDiagram|classDiagram|erDiagram|gantt|journey)/m`. -/
def hasValidStart (cs : List Char) : Bool :=
  (splitNl cs).any (fun l =>
    ["flowchart".data, "graph".data, "sequenceDiagram".data,
     "classDiagram".data, "erDiagram".data, "gantt".data,
     "journey".data].any (fun p => p.isPrefixOf l))

/-- Step 7: drop lines whose trimmed form was already seen. -/
def dedupGo : List (List Char) → List (List Char) → List (List Char)
  | [], _ => []
  | l :: ls, seen =>
    let t := jsTrim l
    if seen.elem t then dedupGo ls seen
    else l :: dedupGo ls (t :: seen)

/-- Steps 1–7 of `processMermaidCode`: the normalized code as it stands when
the size caps are checked. -/
def mermaidNormalize (input : List Char) : List Char :=
  let code :=
    match extractFence input with
    | some c => jsTrim c
    | none => jsTrim input
  let code := braceToBracketGo 0 code
  let code := quoteLabelsGo 0 code
  let code := joinNl ((splitNl code).map safeIdLine)
  let code := escapeLabelsGo 0 code
  let code :=
    if hasValidStart code then code else "flowchart TD\n".data ++ code
  joinNl (dedupGo (splitNl code) [])

/-- `processMermaidCode` from diagrams.ts: normalize, then throw
`Mermaid diagram too large or complex.` when the normalized code has more
than `MAX_LINES = 200` lines or more than `MAX_CHARS = 5000` characters;
otherwise return the trimmed code. -/
def processMermaidCode (input : List Char) : Except (List Char) (List Char) :=
  let code := mermaidNormalize input
  if (splitNl code).length > 200 ∨ code.length > 5000 then
    .error "Mermaid diagram too large or complex.".data
  else .ok (jsTrim code)

/-- A 2×10 grid of single-character cells: each column clamps up to the
150-pixel minimum, so the scaled total stays at 1500 > 1400. -/
def wideGrid : List (List (List Char)) :=
  [List.replicate 10 "a".data, List.replicate 10 "b".data]

/-! ## Claim C8: the Text Segmenter on well-formed marker blobs -/

/-- `pat` has no non-trivial self-overlap: no proper non-empty suffix of
`pat` is a prefix of `pat` (true of both `<latex>` and `</latex>`). -/
def overlapFreeB (pat : List Char) : Bool :=
  (List.range pat.length).all
    (fun d => d = 0 || ! (pat.drop d).isPrefixOf pat)

/-- A blob built from an initial text and a sequence of
(equation, following-text) pieces, each equation wrapped in the markers. -/
def mkBlob (t0 : List Char) (ps : List (List Char × List Char)) : List Char :=
  t0 ++ ps.flatMap (fun p => "<latex>".data ++ p.1 ++ "</latex>".data ++ p.2)

/-- Re-concatenate segments, re-adding the markers around equation
segments. -/
def rebuild : List Seg → List Char
  | [] => []
  | .text t :: segs => t ++ rebuild segs
  | .latex e :: segs =>
    "<latex>".data ++ (e ++ ("</latex>".data ++ rebuild segs))

theorem splitNl_ne_nil (cs : List Char) : splitNl cs ≠ [] := by
  cases cs with
  | nil => simp [splitNl]
  | cons c cs =>
    simp only [splitNl]
    split
    · simp
    · cases splitNl cs <;> simp

theorem joinNl_splitNl (cs : List Char) : joinNl (splitNl cs) = cs := by
  induction cs with
  | nil => rfl
  | cons c cs ih =>
    by_cases h : c = '\n'
    · subst h
      simp only [splitNl, if_pos rfl]
      cases hs : splitNl cs with
      | nil => exact absurd hs (splitNl_ne_nil cs)
      | cons l ls =>
        rw [hs] at ih
        cases ls <;> simpa [joinNl] using ih
    · simp only [splitNl, if_neg h]
      cases hs : splitNl cs with
      | nil => exact absurd hs (splitNl_ne_nil cs)
      | cons l ls =>
        rw [hs] at ih
        cases ls with
        | nil => simpa [joinNl] using ih
        | cons l2 ls2 => simpa [joinNl] using ih

/-- Every character of every line produced by `splitNl` is a character of the
input. -/
theorem mem_of_mem_splitNl {cs : List Char} {l : List Char} {c : Char}
    (hl : l ∈ splitNl cs) (hc : c ∈ l) : c ∈ cs := by
  induction cs generalizing l with
  | nil =>
    simp [splitNl] at hl
    subst hl; simp at hc
  | cons d ds ih =>
    simp only [splitNl] at hl
    by_cases h : d = '\n'
    · rw [if_pos h] at hl
      rcases List.mem_cons.mp hl with h1 | h1
      · subst h1; simp at hc
      · exact List.mem_cons_of_mem _ (ih h1 hc)
    · rw [if_neg h] at hl
      cases hs : splitNl ds with
      | nil => exact absurd hs (splitNl_ne_nil ds)
      | cons l0 ls0 =>
        rw [hs] at hl
        rcases List.mem_cons.mp hl with h1 | h1
        · subst h1
          rcases List.mem_cons.mp hc with h2 | h2
          · exact h2 ▸ List.mem_cons_self _ _
          · exact List.mem_cons_of_mem _ (ih (hs ▸ List.mem_cons_self _ _) h2)
        · exact List.mem_cons_of_mem _ (ih (hs ▸ List.mem_cons_of_mem _ h1) hc)

theorem takeWhile_length_le (p : Char → Bool) (l : List Char) :
    (l.takeWhile p).length ≤ l.length := by
  induction l with
  | nil => simp
  | cons c cs ih =>
    simp only [List.takeWhile]
    split <;> simp <;> omega

theorem dropWhile_length_le (p : Char → Bool) (l : List Char) :
    (l.dropWhile p).length ≤ l.length := by
  induction l with
  | nil => simp
  | cons c cs ih =>
    simp only [List.dropWhile]
    split <;> simp <;> omega

/-! ### Identity of the preprocessing passes on trigger-free input -/

theorem brMatch_eq_none {c : Char} (cs : List Char) (h : c ≠ '<') :
    brMatch (c :: cs) = none := by
  unfold brMatch
  split
  case h_1 c1 c2 rest heq =>
    exact absurd (List.head_eq_of_cons_eq heq) h
  case h_2 => rfl

theorem brReplace_id (cs : List Char) (h : '<' ∉ cs) : brReplace cs = cs := by
  unfold brReplace
  induction cs with
  | nil => rfl
  | cons c cs ih =>
    rw [brGo]
    rw [brMatch_eq_none cs (fun hc => h (List.mem_cons.mpr (Or.inl hc.symm)))]
    rw [ih (fun hc => h (List.mem_cons_of_mem _ hc))]

theorem bracketGo_id (opc clc : Char) (pr : Bool) (line : List Char)
    (cs : List Char) (h : opc ∉ cs) : ∀ i, bracketGo opc clc pr line i 0 cs = cs := by
  induction cs with
  | nil => intro i; rfl
  | cons c cs ih =>
    intro i
    rw [bracketGo]
    rw [if_neg (fun hc => h (List.mem_cons.mpr (Or.inl hc.symm)))]
    rw [ih (fun hc => h (List.mem_cons_of_mem _ hc))]

theorem preprocessMermaidCode_id (s : String)
    (h : ∀ c ∈ s.data, ¬ mermaidTrigger c) : preprocessMermaidCode s = s := by
  unfold preprocessMermaidCode
  have hbr : brReplace s.data = s.data :=
    brReplace_id _ (fun hc => h _ hc (Or.inr (Or.inr (Or.inl rfl))))
  rw [hbr]
  have hline : ∀ l ∈ splitNl s.data,
      pipePassLine (curlyPassLine (parenPassLine (squarePassLine l))) = l := by
    intro l hl
    have hnotin : ∀ c, mermaidTrigger c → c ∉ l := by
      intro c hc hmem
      exact h c (mem_of_mem_splitNl hl hmem) hc
    simp only [squarePassLine, parenPassLine, curlyPassLine, pipePassLine]
    rw [bracketGo_id _ _ _ _ _ (hnotin '[' (by unfold mermaidTrigger; tauto)) 0]
    rw [bracketGo_id _ _ _ _ _ (hnotin '(' (by unfold mermaidTrigger; tauto)) 0]
    rw [bracketGo_id _ _ _ _ _ (hnotin '\x7b' (by unfold mermaidTrigger; tauto)) 0]
    exact bracketGo_id _ _ _ _ _ (hnotin '|' (by unfold mermaidTrigger; tauto)) 0
  have hmap : ∀ (L : List (List Char)),
      (∀ l ∈ L, pipePassLine (curlyPassLine (parenPassLine (squarePassLine l))) = l) →
      L.map (fun line =>
        pipePassLine (curlyPassLine (parenPassLine (squarePassLine line)))) = L := by
    intro L
    induction L with
    | nil => intro _; rfl
    | cons l ls ih =>
      intro hall
      simp only [List.map_cons]
      rw [hall l (List.mem_cons_self _ _), ih (fun x hx => hall x (List.mem_cons_of_mem _ hx))]
  show (joinNl ((splitNl s.data).map (fun line =>
    pipePassLine (curlyPassLine (parenPassLine (squarePassLine line)))))).asString = s
  rw [hmap _ hline, joinNl_splitNl]
  rfl

/-! ### Column-width bounds (claim C3) -/

theorem foldl_add_eq (a : Rat) (l : List Rat) : l.foldl (· + ·) a = a + l.sum := by
  induction l generalizing a with
  | nil => simp
  | cons x xs ih => rw [List.foldl_cons, ih, List.sum_cons]; ring

theorem rat_floor_cast_le (q : Rat) : ((Rat.floor q : Int) : Rat) ≤ q := by
  have h : Rat.floor q = ⌊q⌋ := rfl
  rw [h]
  exact Int.floor_le q

theorem mem_clampColWidths {w : Rat} {ws : List Rat}
    (h : w ∈ clampColWidths ws) : 150 ≤ w ∧ w ≤ 600 := by
  simp only [clampColWidths, List.mem_map] at h
  obtain ⟨w0, _, rfl⟩ := h
  exact ⟨le_max_left _ _, max_le (by norm_num) (min_le_left _ _)⟩

theorem sum_map_affine (s : Rat) (l : List Rat) :
    (l.map (fun w => 150 + w * s)).sum = 150 * l.length + l.sum * s := by
  induction l with
  | nil => simp
  | cons x xs ih => simp [ih]; push_cast; ring

theorem scaleColWidths_bounds {ws : List Rat}
    (hws : ∀ w ∈ ws, 150 ≤ w ∧ w ≤ 600) :
    (∀ w ∈ scaleColWidths ws, 150 ≤ w ∧ w ≤ 600) ∧
    (scaleColWidths ws).sum ≤ 1400 + 150 * (scaleColWidths ws).length := by
  unfold scaleColWidths
  rw [foldl_add_eq, zero_add]
  by_cases ht : ws.sum > 1400
  · rw [if_pos ht]
    have ht0 : (0:Rat) < ws.sum := lt_trans (by norm_num) ht
    have hs0 : (0:Rat) ≤ 1400 / ws.sum := by positivity
    have hs1 : 1400 / ws.sum ≤ 1 := by
      rw [div_le_one ht0]; exact le_of_lt ht
    constructor
    · intro w hw
      simp only [List.mem_map] at hw
      obtain ⟨w0, hw0, rfl⟩ := hw
      obtain ⟨h150, h600⟩ := hws w0 hw0
      have hw0nn : (0:Rat) ≤ w0 := le_trans (by norm_num) h150
      refine ⟨le_max_left _ _, max_le (by norm_num) ?_⟩
      calc ((Rat.floor (w0 * (1400 / ws.sum)) : Int) : Rat)
          ≤ w0 * (1400 / ws.sum) := rat_floor_cast_le _
        _ ≤ w0 * 1 := by
            exact mul_le_mul_of_nonneg_left hs1 hw0nn
        _ ≤ 600 := by rw [mul_one]; exact h600
    · rw [List.length_map]
      have hpt : ∀ w ∈ ws,
          max 150 ((Rat.floor (w * (1400 / ws.sum)) : Int) : Rat) ≤
            150 + w * (1400 / ws.sum) := by
        intro w hw
        have hwnn : (0:Rat) ≤ w := le_trans (by norm_num) (hws w hw).1
        have hprod : (0:Rat) ≤ w * (1400 / ws.sum) := by positivity
        exact max_le (le_add_of_nonneg_right hprod)
          (le_trans (rat_floor_cast_le _) (le_add_of_nonneg_left (by norm_num)))
      calc ((ws.map (fun w => max 150 ((Rat.floor (w * (1400 / ws.sum)) : Int) : Rat))).sum)
          ≤ (ws.map (fun w => 150 + w * (1400 / ws.sum))).sum :=
            List.sum_le_sum hpt
        _ = 150 * ws.length + ws.sum * (1400 / ws.sum) := sum_map_affine _ ws
        _ = 1400 + 150 * ws.length := by
            have hcancel : ws.sum * (1400 / ws.sum) = 1400 := by
              field_simp
            rw [hcancel]; ring
  · rw [if_neg ht]
    push_neg at ht
    refine ⟨hws, ?_⟩
    have hlen : (0:Rat) ≤ 150 * ws.length := by positivity
    linarith

/-! ## Claim C3 -/

/-- C3 (amended): for every TableGrid, every computed column width lies in
`[minColWidth, maxColWidth] = [150, 600]`, and the post-scaling total is at
most `maxTotalWidth + minColWidth · numCols = 1400 + 150·n` (the per-column
minimum re-applied after the proportional scaling can push the total above
`maxTotalWidth` alone). -/
theorem claim3_column_width_bounds (rows : List (List (List Char))) :
    (∀ w ∈ computeColWidths rows, 150 ≤ w ∧ w ≤ 600) ∧
    (computeColWidths rows).sum ≤
      1400 + 150 * (computeColWidths rows).length := by
  unfold computeColWidths
  exact scaleColWidths_bounds (fun w hw => mem_clampColWidths hw)

set_option maxRecDepth 4000 in
/-- C3 (counterexample): the original claim's bound `sum ≤ maxTotalWidth =
1400` fails — for the 2×10 single-character grid the post-scaling column
widths sum to 1500. -/
theorem claim3_counterexample :
    ¬ ((computeColWidths wideGrid).sum ≤ 1400) := by
  decide

/-! ## Claim C6 -/

/-- C6: `convertHtmlTableToMarkdown` on the two-row HTML table yields the
pipe-delimited markdown with an inserted `---` separator row, and the
table-grid parse of `createVisualTableElements` recovers exactly
`[["A","B"],["1","2"]]`, the separator row discarded. -/
theorem claim6_roundtrip :
    (convertHtmlTableToMarkdown
        "<table><tr><th>A</th><th>B</th></tr><tr><td>1</td><td>2</td></tr></table>".data).asString
      = "| A | B |\n| --- | --- |\n| 1 | 2 |" ∧
    (parseTableRows (convertHtmlTableToMarkdown
        "<table><tr><th>A</th><th>B</th></tr><tr><td>1</td><td>2</td></tr></table>".data)).map
        (fun r => r.map List.asString) = [["A", "B"], ["1", "2"]] := by
  constructor
  · decide
  · decide

/-! ## Claim C5 -/

/-- C5 (counterexample): `preprocessMermaidCode` is *not* idempotent.  On
`[do"nt] [b]` the first application escapes the inner double quote of the
first bracket (which had shielded the second bracket from quoting, via the
quote-scan), so a second application quotes `[b]`. -/
theorem claim5_counterexample :
    preprocessMermaidCode (preprocessMermaidCode "[do\"nt] [b]") ≠
      preprocessMermaidCode "[do\"nt] [b]" := by
  decide

/-- C5 (amended): the bracket-quoting step is idempotent on inputs free of
quote characters, `<`, and the four opening delimiters (on such inputs it is
the identity); in general a second application can re-quote bracket contents
whose shielding quote characters the first application escaped. -/
theorem claim5_idempotent_on_plain (s : String)
    (h : ∀ c ∈ s.data, ¬ mermaidTrigger c) :
    preprocessMermaidCode (preprocessMermaidCode s) = preprocessMermaidCode s := by
  rw [preprocessMermaidCode_id s h, preprocessMermaidCode_id s h]

/-- Witness for `claim5_idempotent_on_plain` at the concrete input
`"graph TD"`. -/
theorem claim5_witness :
    preprocessMermaidCode (preprocessMermaidCode "graph TD") =
      preprocessMermaidCode "graph TD" :=
  claim5_idempotent_on_plain "graph TD" (by decide)

/-! ## Claim C1 -/

/-- C1 (code_bug evaluation): an `html` node whose content contains a table
tag but no diagram/equation wrapper is routed to the *Mermaid* handling code
(markdown.ts 862–976 — a verbatim copy of the diagram branch that slices the
content as if it wore `<mermaid>` wrappers), not to the dedicated table
branch: with a diagram parser that throws `boom`, the walker emits the
diagram error fallback and no table-grid primitive at all. -/
theorem claim1_table_html_runs_mermaid_branch :
    traverse failingEnv (.html "<table><tr><td>1</td></tr></table>".data) 0 0 =
      ([{ typ := "text", x := 0, y := 0, width := 400, height := 30,
          text := "Error rendering mermaid: boom", fontSize := 16,
          strokeColor := "#ff0000" }], 50) := by
  decide

/-! ## Claim C2 -/

/-- C2 (counterexample): with the rasterizer returning its empty sentinel,
the middle primitive's text is `LaTeX: E=mc^2` — the `LaTeX Error:` prefix
of the claim is produced only by the (internally caught) exception path, so
no emitted primitive carries it. -/
theorem claim2_counterexample :
    ((traverse failingEnv energyPara 0 0).1.map Elem.text =
      ["Energy: ", "LaTeX: E=mc^2", " is conserved."]) ∧
    (∀ e ∈ (traverse failingEnv energyPara 0 0).1,
      e.text ≠ "LaTeX Error: E=mc^2") := by
  decide

/-- C2 (amended): the scenario paragraph with a failing rasterizer yields
exactly 3 primitives — text `"Energy: "`, the error-styled (orange) fallback
text `"LaTeX: E=mc^2"`, and text `" is conserved."` — at strictly increasing
Y positions 0 < 25 < 50, the cursor ending at 75. -/
theorem claim2_failing_rasterizer_three_primitives :
    traverse failingEnv energyPara 0 0 =
      ([{ typ := "text", x := 0, y := 0, width := 400, height := 20,
          text := "Energy: ", fontSize := 14, strokeColor := "#000000" },
        { typ := "text", x := 0, y := 25, width := 200, height := 20,
          text := "LaTeX: E=mc^2", fontSize := 14, strokeColor := "#ff6b35" },
        { typ := "text", x := 0, y := 50, width := 400, height := 20,
          text := " is conserved.", fontSize := 14,
          strokeColor := "#000000" }], 75) ∧
    ((0 : Rat) < 25 ∧ (25 : Rat) < 50) := by
  decide

/-! ## Claim C4 -/

/-- C4 (counterexample): the paragraph `[text "Hi ", strong [text "there"]]`
has no html child and no equation marker, yet the walker emits one primitive
containing only `"Hi "` — not the full descendant concatenation
`"Hi there"` — and advances the cursor by 25, not the fixed 30: any
non-empty text child routes the paragraph through the per-part path. -/
theorem claim4_counterexample :
    ((traverse failingEnv mixedPara 0 0).1.map Elem.text = ["Hi "]) ∧
    (traverse failingEnv mixedPara 0 0).2 = 25 ∧
    collectAll mixedPara = "Hi there".data ∧
    ("Hi " : String) ≠ "Hi there" ∧ ((25 : Rat) ≠ 0 + 30) := by
  decide

theorem paraLoop_no_special : ∀ (env : WalkEnv) (ch : MdList) (depth : Nat)
    (y : Rat) (sp : Bool), noSpecialChildren ch = true →
    paraLoop env ch depth y sp = ([], y, sp)
  | env, .nil, _, y, sp, _ => rfl
  | env, .cons (MdNode.html v) cs, d, y, sp, h => by
    simp [noSpecialChildren] at h
  | env, .cons (MdNode.text v) cs, d, y, sp, h => by
    simp only [noSpecialChildren, Bool.and_eq_true, List.isEmpty_iff] at h
    obtain ⟨hv, hcs⟩ := h
    subst hv
    have ih := paraLoop_no_special env cs d y sp hcs
    simp [paraLoop, latexParts, latexGo, partsLoop, ih]
  | env, .cons (MdNode.heading hd c2) cs, d, y, sp, h => by
    simp only [noSpecialChildren] at h
    simp [paraLoop, paraLoop_no_special env cs d y sp h]
  | env, .cons (MdNode.paragraph c2) cs, d, y, sp, h => by
    simp only [noSpecialChildren] at h
    simp [paraLoop, paraLoop_no_special env cs d y sp h]
  | env, .cons (MdNode.table c2) cs, d, y, sp, h => by
    simp only [noSpecialChildren] at h
    simp [paraLoop, paraLoop_no_special env cs d y sp h]
  | env, .cons MdNode.thematicBreak cs, d, y, sp, h => by
    simp only [noSpecialChildren] at h
    simp [paraLoop, paraLoop_no_special env cs d y sp h]
  | env, .cons (MdNode.list c2) cs, d, y, sp, h => by
    simp only [noSpecialChildren] at h
    simp [paraLoop, paraLoop_no_special env cs d y sp h]
  | env, .cons (MdNode.listItem po pst c2) cs, d, y, sp, h => by
    simp only [noSpecialChildren] at h
    simp [paraLoop, paraLoop_no_special env cs d y sp h]
  | env, .cons (MdNode.other c2) cs, d, y, sp, h => by
    simp only [noSpecialChildren] at h
    simp [paraLoop, paraLoop_no_special env cs d y sp h]

/-- C4 (amended): the single-concatenated-primitive path requires not merely
the absence of html children and equation markers but that every direct text
child be empty: under that condition (and a non-blank descendant
concatenation) the paragraph emits exactly one text primitive carrying the
concatenation of all descendant text and advances the cursor by the fixed
increment 30.  (A paragraph with a non-empty direct text child instead takes
the per-part path: one primitive per non-blank direct text child, 25 per
primitive, non-text children dropped — see the counterexample.) -/
theorem claim4_pure_text_paragraph (env : WalkEnv) (ch : MdList)
    (depth : Nat) (y : Rat) (hns : noSpecialChildren ch = true)
    (hnb : jsTrim (collectAllL ch) ≠ []) :
    traverse env (.paragraph ch) depth y =
      ([{ typ := "text", x := env.startX + (depth : Rat) * 20, y := y,
          width := 400, height := 30, text := (collectAllL ch).asString,
          fontSize := 14, strokeColor := "#000000" }], y + 30) := by
  simp only [traverse, paraLoop_no_special env ch depth y false hns]
  simp [hnb]

/-- Witness for `claim4_pure_text_paragraph`: a paragraph whose only child is
a `strong`-style node. -/
theorem claim4_witness :
    traverse failingEnv
        (.paragraph (.cons (.other (.cons (.text "b".data) .nil)) .nil)) 0 0 =
      ([{ typ := "text", x := 0, y := 0, width := 400, height := 30,
          text := "b", fontSize := 14, strokeColor := "#000000" }], 0 + 30) := by
  have h := claim4_pure_text_paragraph failingEnv
    (.cons (.other (.cons (.text "b".data) .nil)) .nil) 0 0 (by decide) (by decide)
  simpa using h

/-! ## Claim C10 -/

/-- C10: a standalone text node matching `TABLE_BLOCK_n` with `n` at or past
the end of the supplied `tableBlocks` emits no primitive and leaves the
cursor unchanged (the out-of-range guard has no else branch). -/
theorem claim10_out_of_range_table_block (env : WalkEnv) (v : List Char)
    (n depth : Nat) (y : Rat) (hmatch : tableBlockIndex v = some n)
    (hrange : env.tableBlocks.length ≤ n) :
    traverse env (.text v) depth y = ([], y) := by
  simp only [traverse, textBranch, hmatch]
  rw [if_neg (by omega)]

/-- Witness for `claim10_out_of_range_table_block` at `TABLE_BLOCK_0` with an
empty `tableBlocks`. -/
theorem claim10_witness :
    traverse failingEnv (.text "TABLE_BLOCK_0".data) 0 5 = ([], 5) :=
  claim10_out_of_range_table_block failingEnv _ 0 0 5 (by decide) (by decide)

/-! ## Claim C9 -/

/-- C9: the alternate normalizer raises an error exactly when its normalized
code exceeds the hard caps — more than 200 lines or more than 5000
characters — and for every input within the caps it returns normally (the
trimmed normalized code), never a substitute result. -/
theorem claim9_caps_error_iff (input : List Char) :
    ((∃ e, processMermaidCode input = .error e) ↔
      ((splitNl (mermaidNormalize input)).length > 200 ∨
        (mermaidNormalize input).length > 5000)) ∧
    ((∃ v, processMermaidCode input = .ok v) ↔
      ¬ ((splitNl (mermaidNormalize input)).length > 200 ∨
        (mermaidNormalize input).length > 5000)) := by
  unfold processMermaidCode
  by_cases h : ((splitNl (mermaidNormalize input)).length > 200 ∨
      (mermaidNormalize input).length > 5000) <;>
    simp [h]

/-! ## Cursor monotonicity (claim C7) -/

theorem foldl_mono_ge {α : Type} {g : Rat → α → Rat} (hg : ∀ m x, m ≤ g m x) :
    ∀ (l : List α) (init : Rat), init ≤ l.foldl g init := by
  intro l
  induction l with
  | nil => intro init; simp
  | cons x xs ih =>
    intro init
    exact le_trans (hg init x) (ih (g init x))

theorem le_foldl_max_init (xs : List Rat) (init : Rat) :
    init ≤ xs.foldl max init :=
  foldl_mono_ge (fun m x => le_max_left m x) xs init

theorem le_foldl_max_of_mem {a : Rat} {xs : List Rat} (h : a ∈ xs) :
    ∀ init, a ≤ xs.foldl max init := by
  induction xs with
  | nil => simp at h
  | cons x xs ih =>
    intro init
    rcases List.mem_cons.mp h with h1 | h1
    · subst h1
      exact le_trans (le_max_right init a) (le_foldl_max_init xs (max init a))
    · exact ih h1 (max init x)

theorem le_listMax {a : Rat} {xs : List Rat} (h : a ∈ xs) : a ≤ listMax xs := by
  cases xs with
  | nil => simp at h
  | cons x xs =>
    rcases List.mem_cons.mp h with h1 | h1
    · subst h1; exact le_foldl_max_init xs a
    · exact le_foldl_max_of_mem h1 x

theorem foldl_min_le_init (xs : List Rat) (init : Rat) :
    xs.foldl min init ≤ init := by
  induction xs generalizing init with
  | nil => simp
  | cons x xs ih => exact le_trans (ih (min init x)) (min_le_left init x)

theorem foldl_min_le_of_mem {a : Rat} {xs : List Rat} (h : a ∈ xs) :
    ∀ init, xs.foldl min init ≤ a := by
  induction xs with
  | nil => simp at h
  | cons x xs ih =>
    intro init
    rcases List.mem_cons.mp h with h1 | h1
    · subst h1
      exact le_trans (foldl_min_le_init xs (min init a)) (min_le_right init a)
    · exact ih h1 (min init x)

theorem listMin_le {a : Rat} {xs : List Rat} (h : a ∈ xs) : listMin xs ≤ a := by
  cases xs with
  | nil => simp at h
  | cons x xs =>
    rcases List.mem_cons.mp h with h1 | h1
    · subst h1; exact foldl_min_le_init xs a
    · exact foldl_min_le_of_mem h1 x

theorem cellGo_height_nonneg {colWidths : List Rat} {numCols : Nat}
    {fs rowHeight y : Rat} (hfs : 0 ≤ fs) (hrh : 0 ≤ rowHeight) :
    ∀ (cells : List (Nat × List Char)) (x : Rat) (e : Elem),
      e ∈ cellGo colWidths numCols fs rowHeight y cells x → 0 ≤ e.height := by
  intro cells
  induction cells with
  | nil => intro x e he; simp [cellGo] at he
  | cons c rest ih =>
    intro x e he
    rw [cellGo] at he
    by_cases hci : c.1 < numCols
    · rw [if_pos hci] at he
      rcases List.mem_cons.mp he with h1 | h1
      · subst h1; exact hrh
      · rcases List.mem_cons.mp h1 with h2 | h2
        · subst h2
          have hl : (0:Rat) ≤ ((splitNl (wrapText c.2 (colWidths.getD c.1 0) fs)).length : Rat) := by
            positivity
          simp only
          positivity
        · exact ih _ e h2
    · rw [if_neg hci] at he
      exact ih _ e he

theorem rowHeightOf_ge_60 (colWidths : List Rat) (numCols : Nat) (fs : Rat)
    (row : List (List Char)) : 60 ≤ rowHeightOf colWidths numCols fs row := by
  unfold rowHeightOf
  apply foldl_mono_ge
  intro m p
  by_cases h : p.1 < numCols
  · rw [if_pos h]; exact le_max_left _ _
  · rw [if_neg h]

theorem getD_nonneg_of_all {L : List Rat} (h : ∀ a ∈ L, 0 ≤ a) (i : Nat) :
    0 ≤ L.getD i 0 := by
  rw [List.getD_eq_getElem?_getD]
  cases hg : L[i]? with
  | none => simp [hg]
  | some a =>
    have ha : a ∈ L := by
      obtain ⟨hlt, heq⟩ := List.getElem?_eq_some.mp hg
      exact heq ▸ List.getElem_mem _
    simp only [hg, Option.getD_some]
    exact h a ha

theorem createVisualTableElements_height_nonneg (md : List Char)
    (sx sy : Rat) (e : Elem) (he : e ∈ createVisualTableElements md sx sy) :
    0 ≤ e.height := by
  simp only [createVisualTableElements] at he
  split at he
  · simp at he
  · split at he
    · simp at he
    · rw [List.mem_flatMap] at he
      obtain ⟨p, _, hp⟩ := he
      refine cellGo_height_nonneg ?_ ?_ _ _ _ hp
      · split <;> norm_num
      · apply getD_nonneg_of_all
        intro a ha
        rw [List.mem_map] at ha
        obtain ⟨q, _, rfl⟩ := ha
        exact le_trans (by norm_num) (rowHeightOf_ge_60 _ _ _ _)

theorem tableHeightAdvance_ge {els : List Elem} (hh : ∀ e ∈ els, 0 ≤ e.height)
    (y : Rat) : y ≤ tableHeightAdvance els y := by
  simp only [tableHeightAdvance]
  split
  case isTrue h =>
    rcases hr : els.filter (fun e => e.typ = "rectangle") with _ | ⟨r0, rest⟩
    · rw [hr] at h; simp at h
    · have hr0 : r0 ∈ els := by
        have hmem : r0 ∈ els.filter (fun e => e.typ = "rectangle") := by
          rw [hr]; exact List.mem_cons_self _ _
        exact (List.mem_filter.mp hmem).1
      have hmax : r0.y + r0.height ≤
          listMax ((els.filter (fun e => e.typ = "rectangle")).map
            (fun e => e.y + e.height)) := by
        apply le_listMax
        rw [hr]; simp
      have hmin : listMin ((els.filter (fun e => e.typ = "rectangle")).map
          (fun e => e.y)) ≤ r0.y := by
        apply listMin_le
        rw [hr]; simp
      have hh0 := hh r0 hr0
      linarith
  case isFalse h => linarith

theorem partsLoop_y_le (env : WalkEnv) (depth : Nat) :
    ∀ (ps : List Seg) (y : Rat), y ≤ (partsLoop env depth ps y).2 := by
  intro ps
  induction ps with
  | nil => intro y; simp [partsLoop]
  | cons s ps ih =>
    intro y
    cases s with
    | latex content =>
      by_cases h : env.render content ≠ []
      · have := ih (y + 50)
        simp only [partsLoop, if_pos h]
        linarith
      · have := ih (y + 25)
        simp only [partsLoop, if_neg h]
        linarith
    | text content =>
      by_cases h : jsTrim content ≠ []
      · have := ih (y + 25)
        simp only [partsLoop, if_pos h]
        linarith
      · have := ih y
        simp only [partsLoop, if_neg h]
        linarith

set_option maxHeartbeats 1000000 in
theorem mermaidBranch_y_le (env : WalkEnv) (code : List Char) (depth : Nat)
    (y : Rat) : y ≤ (mermaidBranch env code depth y).2 := by
  rcases hp : env.parseDiag (preprocessMermaidCode code.asString).data with msg | els
  · simp only [mermaidBranch, hp]
    linarith
  · by_cases h : els ≠ []
    · simp only [mermaidBranch, hp]
      rw [if_pos h]
      exact le_trans (foldl_mono_ge (fun m x => le_max_left m (diagBottom x)) _ y)
        (le_add_of_nonneg_right (by norm_num : (0:Rat) ≤ 50))
    · simp only [mermaidBranch, hp]
      rw [if_neg h]
      exact le_add_of_nonneg_right (by norm_num : (0:Rat) ≤ 50)

theorem htmlTableBranch_y_le (env : WalkEnv) (v : List Char) (depth : Nat)
    (y : Rat) : y ≤ (htmlTableBranch env v depth y).2 := by
  simp only [htmlTableBranch]
  split
  · apply tableHeightAdvance_ge
    intro e he
    exact createVisualTableElements_height_nonneg _ _ _ e he
  · show y ≤ y + 50; linarith

theorem htmlBranch_y_le (env : WalkEnv) (v : List Char) (depth : Nat)
    (y : Rat) : y ≤ (htmlBranch env v depth y).2 := by
  simp only [htmlBranch]
  by_cases h1 : "<mermaid>".data.isPrefixOf v ∧ "</mermaid>".data.isSuffixOf v
  · rw [if_pos h1]
    exact mermaidBranch_y_le env _ depth y
  · rw [if_neg h1]
    by_cases h2 : "<latex>".data.isPrefixOf v ∧ "</latex>".data.isSuffixOf v
    · rw [if_pos h2]
      by_cases h3 : env.render (jsTrim (jsSlice v 7 8)) ≠ []
      · rw [if_pos h3]; show y ≤ y + 80; linarith
      · rw [if_neg h3]; show y ≤ y + 50; linarith
    · rw [if_neg h2]
      by_cases h4 : containsPat "<table>".data v = true ∧
          containsPat "</table>".data v = true
      · rw [if_pos h4]
        exact mermaidBranch_y_le env _ depth y
      · rw [if_neg h4, if_neg h4]
        by_cases h5 : jsTrim (stripTagsGo 0 v) ≠ []
        · rw [if_pos h5]; show y ≤ y + 30; linarith
        · rw [if_neg h5]

set_option maxHeartbeats 1000000 in
theorem textBranch_y_le (env : WalkEnv) (v : List Char) (depth : Nat)
    (y : Rat) : y ≤ (textBranch env v depth y).2 := by
  rcases h : tableBlockIndex v with _ | n
  · simp only [textBranch, h]
    show y ≤ y + 30; linarith
  · simp only [textBranch, h]
    by_cases h1 : n < env.tableBlocks.length
    · rw [if_pos h1]
      by_cases h2 : jsTrim (convertHtmlTableToMarkdown
          (env.tableBlocks.getD n [])) ≠ []
      · rw [if_pos h2]
        apply tableHeightAdvance_ge
        intro e he
        exact createVisualTableElements_height_nonneg _ _ _ e he
      · rw [if_neg h2]
        show y ≤ y + 50; linarith
    · rw [if_neg h1]

theorem headingBranch_y_le (env : WalkEnv) (hd : Nat) (ch : MdList)
    (depth : Nat) (y : Rat) : y ≤ (headingBranch env hd ch depth y).2 := by
  simp only [headingBranch]
  have h12 : (12 : Rat) ≤ max 12 (20 - (hd : Rat) * 2) := le_max_left _ _
  linarith

theorem tableBranch_y_le (env : WalkEnv) (ch : MdList) (depth : Nat)
    (y : Rat) : y ≤ (tableBranch env ch depth y).2 := by
  simp only [tableBranch]
  apply tableHeightAdvance_ge
  intro e he
  exact createVisualTableElements_height_nonneg _ _ _ e he

mutual

theorem traverse_y_le (env : WalkEnv) : ∀ (n : MdNode) (depth : Nat) (y : Rat),
    y ≤ (traverse env n depth y).2
  | .heading hd ch, depth, y => headingBranch_y_le env hd ch depth y
  | .paragraph ch, depth, y => by
    have h := paraLoop_y_le env ch depth y false
    simp only [traverse]
    split
    · exact h
    · split
      · simp only; linarith
      · exact h
  | .html v, depth, y => htmlBranch_y_le env v depth y
  | .table ch, depth, y => tableBranch_y_le env ch depth y
  | .thematicBreak, depth, y => by
    simp only [traverse, breakBranch]; linarith
  | .list ch, depth, y => traverseList_y_le env ch (depth + 1) y
  | .listItem po pst ch, depth, y => by
    simp only [traverse, listItemBranch]; linarith
  | .text v, depth, y => textBranch_y_le env v depth y
  | .other ch, depth, y => traverseList_y_le env ch (depth + 1) y

theorem traverseList_y_le (env : WalkEnv) : ∀ (l : MdList) (depth : Nat)
    (y : Rat), y ≤ (traverseList env l depth y).2
  | .nil, _, y => le_refl y
  | .cons n ns, depth, y => by
    have h1 := traverse_y_le env n depth y
    have h2 := traverseList_y_le env ns depth (traverse env n depth y).2
    simp only [traverseList]
    exact le_trans h1 h2

theorem paraLoop_y_le (env : WalkEnv) : ∀ (l : MdList) (depth : Nat) (y : Rat)
    (sp : Bool), y ≤ (paraLoop env l depth y sp).2.1
  | .nil, _, y, _ => le_refl y
  | .cons (MdNode.html v) cs, depth, y, sp => by
    have h1 := traverse_y_le env (MdNode.html v) depth y
    have h2 := paraLoop_y_le env cs depth
      (traverse env (MdNode.html v) depth y).2 true
    simp only [paraLoop]
    exact le_trans h1 h2
  | .cons (MdNode.text v) cs, depth, y, sp => by
    have h1 := partsLoop_y_le env depth (latexParts v) y
    have h2 := paraLoop_y_le env cs depth
      (partsLoop env depth (latexParts v) y).2
      (if (latexParts v).length > 0 then true else sp)
    simp only [paraLoop]
    exact le_trans h1 h2
  | .cons (MdNode.heading hd c2) cs, depth, y, sp =>
    paraLoop_y_le env cs depth y sp
  | .cons (MdNode.paragraph c2) cs, depth, y, sp =>
    paraLoop_y_le env cs depth y sp
  | .cons (MdNode.table c2) cs, depth, y, sp =>
    paraLoop_y_le env cs depth y sp
  | .cons MdNode.thematicBreak cs, depth, y, sp =>
    paraLoop_y_le env cs depth y sp
  | .cons (MdNode.list c2) cs, depth, y, sp =>
    paraLoop_y_le env cs depth y sp
  | .cons (MdNode.listItem po pst c2) cs, depth, y, sp =>
    paraLoop_y_le env cs depth y sp
  | .cons (MdNode.other c2) cs, depth, y, sp =>
    paraLoop_y_le env cs depth y sp

end

/-! ## Claim C7 -/

/-- C7: for every document tree (and any rasterizer/diagram-parser behavior),
the sequence of `currentY` values read at the start of processing each
top-level child is non-decreasing: no branch of the walker ever decreases the
shared vertical cursor. -/
theorem claim7_cursor_monotone (env : WalkEnv) : ∀ (children : MdList)
    (startY : Rat), List.Chain' (· ≤ ·) (topLevelYs env children startY)
  | .nil, y => by simp [topLevelYs]
  | .cons c cs, y => by
    rw [topLevelYs]
    refine List.chain'_cons'.mpr ⟨?_, claim7_cursor_monotone env cs _⟩
    intro y2 hy2
    cases cs with
    | nil => simp [topLevelYs] at hy2
    | cons c2 cs2 =>
      simp only [topLevelYs, List.head?_cons, Option.mem_def,
        Option.some_inj] at hy2
      exact hy2 ▸ traverse_y_le env c 0 y

theorem containsPat_tail {pat c cs} (h : containsPat pat (c :: cs) = false) :
    containsPat pat cs = false := by
  simp only [containsPat, Bool.or_eq_false_iff] at h
  exact h.2

theorem not_isPrefixOf_head {pat c cs} (h : containsPat pat (c :: cs) = false) :
    ¬ (pat.isPrefixOf (c :: cs) = true) := by
  simp only [containsPat, Bool.or_eq_false_iff] at h
  simp [h.1]

/-- No occurrence of an overlap-free `pat` can start inside `s` when the
input is `s ++ pat ++ r`: the straddling occurrence would exhibit a
self-overlap. -/
theorem not_prefix_straddle {pat s r : List Char} (hne : pat ≠ [])
    (hov : overlapFreeB pat = true) (hno : containsPat pat s = false)
    (hs : s ≠ []) : ¬ (pat.isPrefixOf (s ++ (pat ++ r)) = true) := by
  intro hpre
  have hp : pat <+: s ++ (pat ++ r) := List.isPrefixOf_iff_prefix.mp hpre
  have htake : (s ++ (pat ++ r)).take pat.length = pat :=
    (List.prefix_iff_eq_take.mp hp).symm
  rw [List.take_append_eq_append_take] at htake
  by_cases hlen : pat.length ≤ s.length
  · have h0 : pat.length - s.length = 0 := by omega
    rw [h0] at htake
    simp only [List.take_zero, List.append_nil] at htake
    have hps : pat <+: s := htake ▸ List.take_prefix pat.length s
    rcases s with _ | ⟨c, s⟩
    · exact hs rfl
    · have : pat.isPrefixOf (c :: s) = true :=
        List.isPrefixOf_iff_prefix.mpr hps
      exact not_isPrefixOf_head hno this
  · push_neg at hlen
    have hsl : s.take pat.length = s := List.take_all_of_le (le_of_lt hlen)
    rw [hsl] at htake
    have hdrop : pat.drop s.length = (pat ++ r).take (pat.length - s.length) := by
      have := congrArg (List.drop s.length) htake.symm
      rwa [List.drop_left] at this
    rw [List.take_append_eq_append_take] at hdrop
    have h0 : pat.length - s.length - pat.length = 0 := by omega
    rw [h0] at hdrop
    simp only [List.take_zero, List.append_nil] at hdrop
    have hpre2 : (pat.drop s.length).isPrefixOf pat = true := by
      apply List.isPrefixOf_iff_prefix.mpr
      exact hdrop ▸ List.take_prefix _ pat
    have hslen : 0 < s.length := List.length_pos.mpr hs
    have hmem : s.length ∈ List.range pat.length := by
      rw [List.mem_range]; omega
    have := (List.all_eq_true.mp hov) s.length hmem
    simp only [Bool.or_eq_true, decide_eq_true_eq, Bool.not_eq_true] at this
    rcases this with h1 | h1
    · omega
    · rw [hpre2] at h1; exact absurd h1 (by decide)

/-- `findPat` on `t ++ pat ++ r` finds exactly the boundary occurrence when
`t` contains none and `pat` is overlap-free. -/
theorem findPat_boundary {pat : List Char} (hne : pat ≠ [])
    (hov : overlapFreeB pat = true) :
    ∀ (t r : List Char), containsPat pat t = false →
      findPat pat (t ++ pat ++ r) = some (t, r)
  | [], r, _ => by
    rcases pat with _ | ⟨p, pat'⟩
    · exact absurd rfl hne
    · rw [List.nil_append, List.cons_append]
      simp only [findPat]
      have hpre : (p :: pat').isPrefixOf (p :: (pat' ++ r)) = true := by
        rw [← List.cons_append]
        exact List.isPrefixOf_iff_prefix.mpr (List.prefix_append _ r)
      rw [if_pos hpre, ← List.cons_append, List.drop_left]
  | c :: t, r, hno => by
    have hnp : ¬ (pat.isPrefixOf ((c :: t) ++ (pat ++ r)) = true) :=
      not_prefix_straddle hne hov hno (by simp)
    have ih := findPat_boundary hne hov t r (containsPat_tail hno)
    rw [List.cons_append]
    simp only [findPat]
    rw [if_neg (by simpa using hnp)]
    rw [List.append_assoc] at ih
    simp only [List.append_eq, List.append_assoc, ih]

theorem overlapFree_open : overlapFreeB "<latex>".data = true := by decide

theorem overlapFree_close : overlapFreeB "</latex>".data = true := by decide

/-- Skipping exactly the length of a prefix resumes the scan after it. -/
theorem latexGo_skip : ∀ (pre cs buf : List Char),
    latexGo (pre ++ cs) buf pre.length = latexGo cs buf 0
  | [], cs, buf => rfl
  | c :: pre, cs, buf => by
    rw [List.cons_append]
    show latexGo (c :: (pre ++ cs)) buf (pre.length + 1) = latexGo cs buf 0
    rw [latexGo]
    exact latexGo_skip pre cs buf

theorem containsPat_of_suffix {pat : List Char} :
    ∀ (u s : List Char), containsPat pat (u ++ s) = false →
      containsPat pat s = false
  | [], _, h => h
  | c :: u, s, h => containsPat_of_suffix u s (containsPat_tail h)

theorem isPrefixOf_false_of_not_contains {pat s : List Char} (hs : s ≠ [])
    (h : containsPat pat s = false) : pat.isPrefixOf s = false := by
  rcases s with _ | ⟨c, cs⟩
  · exact absurd rfl hs
  · simp only [containsPat, Bool.or_eq_false_iff] at h
    exact h.1

/-- Scanning through text in which no occurrence of the opener starts only
accumulates the buffer. -/
theorem latexGo_text : ∀ (s r buf : List Char),
    (∀ s_1, s_1 <:+ s → s_1 ≠ [] →
      "<latex>".data.isPrefixOf (s_1 ++ r) = false) →
    latexGo (s ++ r) buf 0 = latexGo r (s.reverse ++ buf) 0
  | [], _, _, _ => rfl
  | c :: s, r, buf, h => by
    rw [List.cons_append]
    have hhead : "<latex>".data.isPrefixOf (c :: (s ++ r)) = false := by
      have := h (c :: s) (List.suffix_refl _) (by simp)
      rwa [List.cons_append] at this
    have ih := latexGo_text s r (c :: buf)
      (fun s_1 hs hne => h s_1 (hs.trans (List.suffix_cons c s)) hne)
    simp only [latexGo]
    rw [if_neg (by simp [hhead]), ih]
    simp [List.append_assoc]

/-- A remaining tail holding no opener becomes a single text segment. -/
theorem latexGo_last (t : List Char) (hne : t ≠ [])
    (h : containsPat "<latex>".data t = false) :
    latexGo t [] 0 = [Seg.text t] := by
  have h1 := latexGo_text t [] []
    (fun s_1 hs hsne => by
      rw [List.append_nil]
      obtain ⟨u, hu⟩ := hs
      have h0 := h
      rw [← hu] at h0
      exact isPrefixOf_false_of_not_contains hsne
        (containsPat_of_suffix u s_1 h0))
  rw [List.append_nil] at h1
  rw [h1]
  simp only [latexGo, List.append_nil]
  rw [if_neg (by simp [hne]), List.reverse_reverse]

/-- One well-formed marker block at the head of the scan flushes the
buffer, emits the (trimmed) equation, and resumes after the closer. -/
theorem latexGo_match (e rest buf : List Char)
    (he : containsPat "</latex>".data e = false)
    (hnl : e.any isLineTerm = false) :
    latexGo ("<latex>".data ++ (e ++ ("</latex>".data ++ rest))) buf 0 =
      (if buf = [] then [] else [Seg.text buf.reverse]) ++
        Seg.latex (jsTrim e) :: latexGo rest [] 0 := by
  have hfind : findPat "</latex>".data (e ++ ("</latex>".data ++ rest)) =
      some (e, rest) := by
    have := findPat_boundary (by decide) overlapFree_close e rest he
    rwa [List.append_assoc] at this
  have hsplit : "<latex>".data ++ (e ++ ("</latex>".data ++ rest)) =
      '<' :: ("latex>".data ++ (e ++ ("</latex>".data ++ rest))) := rfl
  have hpre : "<latex>".data.isPrefixOf
      ('<' :: ("latex>".data ++ (e ++ ("</latex>".data ++ rest)))) = true := by
    have hp : "<latex>".data <+:
        "<latex>".data ++ (e ++ ("</latex>".data ++ rest)) :=
      List.prefix_append _ _
    exact List.isPrefixOf_iff_prefix.mpr (hsplit ▸ hp)
  have hdrop : ('<' :: ("latex>".data ++
      (e ++ ("</latex>".data ++ rest)))).drop 7 =
      e ++ ("</latex>".data ++ rest) := by
    rw [← hsplit]
    show List.drop ("<latex>".data).length
      ("<latex>".data ++ (e ++ ("</latex>".data ++ rest))) =
      e ++ ("</latex>".data ++ rest)
    exact List.drop_left _ _
  have hskip : latexGo ("latex>".data ++ (e ++ ("</latex>".data ++ rest)))
      [] (e.length + 14) = latexGo rest [] 0 := by
    have h1 : "latex>".data ++ (e ++ ("</latex>".data ++ rest)) =
        ("latex>".data ++ e ++ "</latex>".data) ++ rest := by
      simp [List.append_assoc]
    have h2 : e.length + 14 =
        ("latex>".data ++ e ++ "</latex>".data).length := by
      rw [List.length_append, List.length_append]
      show e.length + 14 = 6 + e.length + 8
      omega
    rw [h1, h2]
    exact latexGo_skip _ rest []
  rw [hsplit]
  simp only [latexGo]
  rw [if_pos hpre, hdrop, hfind]
  show (if e.any isLineTerm then
      latexGo ("latex>".data ++ (e ++ ("</latex>".data ++ rest)))
        ('<' :: buf) 0
    else
      (if buf = [] then [] else [Seg.text buf.reverse]) ++
        Seg.latex (jsTrim e) :: latexGo ("latex>".data ++
          (e ++ ("</latex>".data ++ rest))) [] (e.length + 14)) = _
  rw [if_neg (by simp [hnl]), hskip]

/-- The scan of a whole well-formed blob: leading text, then one equation
and one following text segment per marker block. -/
theorem latexGo_blob :
    ∀ (ps : List (List Char × List Char)) (t0 : List Char),
    containsPat "<latex>".data t0 = false → t0 ≠ [] →
    (∀ p ∈ ps, containsPat "</latex>".data p.1 = false ∧
      p.1.any isLineTerm = false ∧
      containsPat "<latex>".data p.2 = false ∧ p.2 ≠ []) →
    latexGo (mkBlob t0 ps) [] 0 =
      Seg.text t0 ::
        ps.flatMap (fun p => [Seg.latex (jsTrim p.1), Seg.text p.2])
  | [], t0, h0, hne, _ => by
    simp only [mkBlob, List.flatMap_nil, List.append_nil]
    rw [latexGo_last t0 hne h0]
  | (e, t) :: ps, t0, h0, hne, hp => by
    obtain ⟨he1, he0, he2, he3⟩ := hp (e, t) (List.mem_cons_self _ _)
    have hrec := latexGo_blob ps t he2 he3
      (fun p hm => hp p (List.mem_cons_of_mem _ hm))
    have hshape : mkBlob t0 ((e, t) :: ps) =
        t0 ++ ("<latex>".data ++ (e ++ ("</latex>".data ++ mkBlob t ps))) := by
      simp [mkBlob, List.append_assoc]
    rw [hshape]
    rw [latexGo_text t0 _ []
      (fun s_1 hs hsne => by
        obtain ⟨u, hu⟩ := hs
        have h0q := h0
        rw [← hu] at h0q
        have hc := containsPat_of_suffix u s_1 h0q
        exact Bool.eq_false_iff.mpr
          (not_prefix_straddle (by decide) overlapFree_open hc hsne))]
    rw [List.append_nil]
    rw [latexGo_match e (mkBlob t ps) t0.reverse he1 he0]
    rw [if_neg (by simp [hne]), List.reverse_reverse, hrec]
    simp

theorem flatMap_two_length (ps : List (List Char × List Char)) :
    (ps.flatMap (fun p => [Seg.latex p.1, Seg.text p.2])).length =
      2 * ps.length := by
  induction ps with
  | nil => rfl
  | cons p ps ih =>
    rw [List.flatMap_cons, List.length_append, ih, List.length_cons]
    show 2 + 2 * ps.length = 2 * (ps.length + 1)
    omega

theorem flatMap_trim_eq (ps : List (List Char × List Char))
    (h : ∀ p ∈ ps, jsTrim p.1 = p.1) :
    ps.flatMap (fun p => [Seg.latex (jsTrim p.1), Seg.text p.2]) =
      ps.flatMap (fun p => [Seg.latex p.1, Seg.text p.2]) := by
  induction ps with
  | nil => rfl
  | cons p ps ih =>
    rw [List.flatMap_cons, List.flatMap_cons,
      h p (List.mem_cons_self _ _),
      ih (fun q hq => h q (List.mem_cons_of_mem _ hq))]

theorem rebuild_blob (ps : List (List Char × List Char)) :
    ∀ (t0 : List Char),
    rebuild (Seg.text t0 ::
        ps.flatMap (fun p => [Seg.latex p.1, Seg.text p.2])) =
      mkBlob t0 ps := by
  induction ps with
  | nil => intro t0; simp [rebuild, mkBlob]
  | cons p ps ih =>
    intro t0
    have ihp := ih p.2
    rw [rebuild] at ihp
    rw [List.flatMap_cons, List.cons_append, List.cons_append, List.nil_append]
    rw [rebuild, rebuild, rebuild, ihp]
    simp [mkBlob, List.append_assoc]

/-- C8 counterexample: the blob `"<latex>x</latex>"` carries N = 1
well-formed, non-nested equation marker pair, yet the Text Segmenter
returns a single equation segment (the two empty text segments are
dropped), not 2N+1 = 3 segments. -/
theorem claim8_counterexample :
    latexParts "<latex>x</latex>".data = [Seg.latex "x".data] ∧
      (latexParts "<latex>x</latex>".data).length ≠ 2 * 1 + 1 := by decide

/-- C8 (amended): for a blob built from a non-empty leading text free of
openers and N marker blocks whose equations are closer-free,
line-terminator-free (the regex dot matches no line terminator) and
already trimmed and whose following texts are non-empty and opener-free,
the Text Segmenter returns exactly the 2N+1 alternating segments in
order, and re-concatenating segment contents with markers restored
around equation segments reproduces the blob exactly. -/
theorem claim8_wellformed_blob (t0 : List Char)
    (ps : List (List Char × List Char))
    (h0 : containsPat "<latex>".data t0 = false) (hne : t0 ≠ [])
    (hp : ∀ p ∈ ps, containsPat "</latex>".data p.1 = false ∧
      p.1.any isLineTerm = false ∧ jsTrim p.1 = p.1 ∧
      containsPat "<latex>".data p.2 = false ∧ p.2 ≠ []) :
    latexParts (mkBlob t0 ps) =
        Seg.text t0 :: ps.flatMap (fun p => [Seg.latex p.1, Seg.text p.2]) ∧
      (latexParts (mkBlob t0 ps)).length = 2 * ps.length + 1 ∧
      rebuild (latexParts (mkBlob t0 ps)) = mkBlob t0 ps := by
  have hmain : latexParts (mkBlob t0 ps) =
      Seg.text t0 ::
        ps.flatMap (fun p => [Seg.latex (jsTrim p.1), Seg.text p.2]) :=
    latexGo_blob ps t0 h0 hne
      (fun p hm => ⟨(hp p hm).1, (hp p hm).2.1,
        (hp p hm).2.2.2.1, (hp p hm).2.2.2.2⟩)
  have heq : latexParts (mkBlob t0 ps) =
      Seg.text t0 :: ps.flatMap (fun p => [Seg.latex p.1, Seg.text p.2]) :=
    hmain.trans (by rw [flatMap_trim_eq ps (fun p hm => (hp p hm).2.2.1)])
  refine ⟨heq, ?_, ?_⟩
  · rw [heq, List.length_cons, flatMap_two_length]
  · rw [heq, rebuild_blob]

/-- Witness for C8 at the blob `"a<latex>x</latex>b"`,
i.e. `mkBlob "a" [("x", "b")]`. -/
theorem claim8_witness :
    (latexParts (mkBlob "a".data [("x".data, "b".data)]) =
        Seg.text "a".data ::
          [(("x".data : List Char), ("b".data : List Char))].flatMap
            (fun p => [Seg.latex p.1, Seg.text p.2]) ∧
      (latexParts (mkBlob "a".data [("x".data, "b".data)])).length =
        2 * [(("x".data : List Char), ("b".data : List Char))].length + 1 ∧
      rebuild (latexParts (mkBlob "a".data [("x".data, "b".data)])) =
        mkBlob "a".data [("x".data, "b".data)]) :=
  claim8_wellformed_blob "a".data [("x".data, "b".data)]
    (by decide) (by decide) (by decide)

end Quelo

